import Mathlib

/-!
# Verification of the sales-dashboard attribution core (`dashboard_vendas.py`)

Shallow embedding of the numeric/aggregation core of `dashboard_vendas.py`:

* raw cells, rows and frames model the pandas `DataFrame` values flowing
  through the pipeline (a missing cell is `Celula.vazio`, standing for NaN);
* floating-point values are embedded as exact rationals (`ℚ`): every value
  a float can hold is rational, and the spec reads the arithmetic exactly;
* quantities of the form `q / √d` (z-scores, Pearson correlations) are kept
  in the exact representation `Qsqrt` (a rational numerator over the square
  root of a positive rational) and interpreted into `ℝ`;
* Python in-place mutation of the frame passed to `_prep_mensal` is made
  explicit: the function returns the updated frame next to its result.
-/

/-- A raw scalar cell of an input sheet / frame.  `vazio` stands for a
missing value (NaN/NaT after coercion); `texto` for a string cell; `num` for
a numeric cell; `data` for a resolved calendar month (pandas `Timestamp`
with day 1), as produced by month parsing. -/
inductive Celula where
  | vazio : Celula
  | num : ℚ → Celula
  | texto : String → Celula
  | data : Nat × Nat → Celula
deriving DecidableEq, Repr

/-- One row of a frame: an association list from column label to cell. -/
abbrev Linha := List (String × Celula)

/-- A data frame: the column labels together with the rows.  A label absent
from a row reads as `Celula.vazio` (pandas fills NaN when concatenating
frames with different columns). -/
structure Frame where
  cols : List String
  rows : List Linha
deriving DecidableEq, Repr

/-- Read the cell of column `c` in row `r` (NaN, i.e. `vazio`, if absent). -/
def getCell (r : Linha) (c : String) : Celula :=
  (r.lookup c).getD .vazio

/-- Column assignment on one row: replace the value bound to `c`, or append
the binding if the row does not have the column yet. -/
def setCell (r : Linha) (c : String) (v : Celula) : Linha :=
  if r.any (fun p => p.1 == c) then
    r.map (fun p => if p.1 == c then (p.1, v) else p)
  else
    r ++ [(c, v)]

/-- Column assignment `df[c] = f(row)` on a frame: a new column label is
appended at the end, an existing one is overwritten in place. -/
def setCol (f : Frame) (c : String) (vf : Linha → Celula) : Frame :=
  ⟨if f.cols.contains c then f.cols else f.cols ++ [c],
   f.rows.map (fun r => setCell r c (vf r))⟩

/-- Parse a plain decimal literal (optional sign, digits, optional fractional
part) into a rational, as Python's numeric coercion accepts it.  Exponent
forms and special floats are not used by this pipeline's data and are left
unparsed (they coerce to NaN and then to 0 just like any other text). -/
def parseRacional (s : String) : Option ℚ :=
  let core := fun (t : String) (sgn : ℚ) =>
    match t.splitOn "." with
    | [a] => (a.toNat?).map (fun n => sgn * (n : ℚ))
    | [a, b] =>
      if a.isEmpty && b.isEmpty then none
      else if (a.all Char.isDigit) && (b.all Char.isDigit) then
        ((a ++ b).toNat?).map (fun n => sgn * (n : ℚ) / ((10 : ℚ) ^ b.length))
      else none
    | _ => none
  if s.startsWith "-" then core (s.drop 1) (-1)
  else if s.startsWith "+" then core (s.drop 1) 1
  else core s 1

/-- `pd.to_numeric(·, errors="coerce").fillna(0)` on one cell: numbers pass
through, anything that does not read as a number becomes 0. -/
def toNumeric (c : Celula) : ℚ :=
  match c with
  | .num q => q
  | .vazio => 0
  | .data _ => 0
  | .texto s => (parseRacional s.trim).getD 0

/-- The English month abbreviations matched by the `%b` format directive
(matching is case-insensitive, as in `strptime`). -/
def mesesEn : List (String × Nat) :=
  [("jan", 1), ("feb", 2), ("mar", 3), ("apr", 4), ("may", 5), ("jun", 6),
   ("jul", 7), ("aug", 8), ("sep", 9), ("oct", 10), ("nov", 11), ("dec", 12)]

/-- Look up a month abbreviation (case-insensitively), as `%b` does. -/
def mesAbrev (s : String) : Option Nat :=
  mesesEn.lookup s.toLower

/-- Parse a `%Y` year field: a non-empty string of at most four digits.
`datetime` additionally requires the year to be at least 1 (year 0 raises
and the surrounding `except` turns it into a parse failure).  (pandas
further restricts to the `Timestamp` range 1677–2262; that finer bound is
not modelled — no claim depends on years near it.) -/
def anoDe (s : String) : Option Nat :=
  match s.toNat? with
  | none => none
  | some n => if 1 ≤ n && s.length ≤ 4 then some n else none

/-- One `strptime`-style attempt at format `%b` ++ sep ++ `%Y`: the whole
string must be consumed (month token, separator, year token). -/
def tentarFormato (sep : String) (s : String) : Option (Nat × Nat) :=
  match s.splitOn sep with
  | [mTok, aTok] =>
    match mesAbrev mTok, anoDe aTok with
    | some m, some a => some (a, m)
    | _, _ => none
  | _ => none

/-- The Portuguese→English month-abbreviation substitutions of `parse_mes`,
applied in order by `str.replace` (every occurrence is replaced). -/
def mapaMeses : List (String × String) :=
  [("Fev", "Feb"), ("Abr", "Apr"), ("Mai", "May"), ("Ago", "Aug"),
   ("Set", "Sep"), ("Out", "Oct"), ("Dez", "Dec")]

/-- Apply all abbreviation substitutions to a string. -/
def substituirMeses (s : String) : String :=
  mapaMeses.foldl (fun t p => t.replace p.1 p.2) s

/-- `parse_mes` of the source: on a missing value return NaT; strip the
string; try `%b/%Y` directly; on failure substitute the Portuguese month
abbreviations and retry the formats `%b/%Y`, `%b-%Y`, `%b %Y` in order;
return NaT (`none`) when everything fails.  The result is the resolved
(year, month) pair. -/
def parse_mes (c : Celula) : Option (Nat × Nat) :=
  match c with
  | .vazio => none
  | .data _ => none
  | .num _ => none
  | .texto s0 =>
    let s := s0.trim
    match tentarFormato "/" s with
    | some ym => some ym
    | none =>
      let sEn := substituirMeses s
      match tentarFormato "/" sEn with
      | some ym => some ym
      | none =>
        match tentarFormato "-" sEn with
        | some ym => some ym
        | none => tentarFormato " " sEn

/-- Wrap a parse result back into a cell: NaT is a missing value. -/
def celulaDeData (o : Option (Nat × Nat)) : Celula :=
  match o with
  | none => .vazio
  | some ym => .data ym

/-- Errors aborting a load: no recognized sheet, or no month column. -/
inductive Erro where
  | semFonteReconhecida : Erro
  | semColunaMes : Erro
deriving DecidableEq, Repr

/-- The recognized source sheets, in recognized-set order. -/
def esperadas : List String := ["Loja_A", "Loja_B", "Loja_C"]

/-- The canonical column rename table of `carregar_dados`. -/
def colmap : List (String × String) :=
  [("Mês", "Mes"), ("Preço_Médio", "Preco_Medio"),
   ("Concorrencia_Promocoes", "Concorrencia_Promocoes"),
   ("Faltas_Func", "Faltas_Func"),
   ("Investimento_Marketing", "Investimento_Marketing"),
   ("Estoque_%", "Estoque_Perc"), ("Temperatura", "Temperatura"),
   ("Vendas", "Vendas")]

/-- Rename one column label through the rename table. -/
def renome (c : String) : String :=
  (colmap.lookup c).getD c

/-- The store identifier derived from a sheet name: `nome.split("_")[-1]`. -/
def ultimoToken (nome : String) : String :=
  (nome.splitOn "_").getLastD nome

/-- The column labels of a raw sheet, in order of first appearance. -/
def colunasDe (rows : List Linha) : List String :=
  ((rows.map (fun r => r.map Prod.fst)).flatten).dedup

/-- The sheets of the input that are recognized, in recognized-set order. -/
def presentesDe (planilhas : List (String × List Linha)) : List String :=
  esperadas.filter (fun n => (planilhas.map Prod.fst).contains n)

/-- Read one recognized sheet and tag every row with its store identifier:
`df["Loja"] = nome.split("_")[-1]`. -/
def lerAba (planilhas : List (String × List Linha)) (nome : String) : Frame :=
  let rows := (planilhas.lookup nome).getD []
  setCol ⟨colunasDe rows, rows⟩ "Loja" (fun _ => .texto (ultimoToken nome))

/-- `pd.concat(frames, ignore_index=True)`: columns are the union in order
of first appearance; rows are concatenated (missing cells read as NaN). -/
def concatFrames (fs : List Frame) : Frame :=
  ⟨(fs.map Frame.cols).flatten.dedup, (fs.map Frame.rows).flatten⟩

/-- Rename all the column labels of a frame through the rename table. -/
def renomearFrame (f : Frame) : Frame :=
  ⟨f.cols.map renome, f.rows.map (fun r => r.map (fun p => (renome p.1, p.2)))⟩

/-- The coercion step applied per numeric column:
`if col not in df.columns: df[col] = 0` followed by
`df[col] = pd.to_numeric(df[col], errors="coerce").fillna(0)`. -/
def coagir (f : Frame) (c : String) : Frame :=
  let f1 := if f.cols.contains c then f else setCol f c (fun _ => .num 0)
  setCol f1 c (fun r => .num (toNumeric (getCell r c)))

/-- The concatenated, store-tagged frame built from the recognized sheets
(the state of `df_all` right after the reading loop and `pd.concat`). -/
def baseFrame (planilhas : List (String × List Linha)) : Frame :=
  concatFrames ((presentesDe planilhas).map (lerAba planilhas))

/-- `carregar_dados`: fail when no recognized sheet is present; otherwise
concatenate the tagged sheets, rename the columns, coerce the three numeric
columns, and resolve the month column into the `Data` column (failing when
neither `Mes` nor `Mês` exists). -/
def carregar_dados (planilhas : List (String × List Linha)) :
    Except Erro Frame :=
  if (presentesDe planilhas).isEmpty then .error .semFonteReconhecida
  else
    let df1 := renomearFrame (baseFrame planilhas)
    let df2 := (["Vendas", "Preco_Medio", "Estoque_Perc"]).foldl coagir df1
    if df2.cols.contains "Mes" then
      .ok (setCol df2 "Data" (fun r => celulaDeData (parse_mes (getCell r "Mes"))))
    else if df2.cols.contains "Mês" then
      .ok (setCol df2 "Data" (fun r => celulaDeData (parse_mes (getCell r "Mês"))))
    else .error .semColunaMes

/-- The five explanatory factors, in declaration (column) order. -/
inductive Fator where
  | preco : Fator
  | conc : Fator
  | faltas : Fator
  | invest : Fator
  | estoque : Fator
deriving DecidableEq, Repr

/-- The factor declaration order used by every column list of the source. -/
def fatores : List Fator :=
  [.preco, .conc, .faltas, .invest, .estoque]

/-- The canonical column label of each factor. -/
def colFator : Fator → String
  | .preco => "Preco_Medio"
  | .conc => "Concorrencia_Promocoes"
  | .faltas => "Faltas_Func"
  | .invest => "Investimento_Marketing"
  | .estoque => "Estoque_Perc"

/-- Declaration index of a factor (its position in `fatores`). -/
def idxFator : Fator → Nat
  | .preco => 0
  | .conc => 1
  | .faltas => 2
  | .invest => 3
  | .estoque => 4

/-- Exact representation of a value of the form `num / √den` with `den`
positive, as produced by z-scores and Pearson correlations of rational
data.  Keeping the radicand exact keeps every comparison decidable. -/
structure Qsqrt where
  num : ℚ
  den : ℚ
  dpos : 0 < den

/-- The real value represented by a `Qsqrt`. -/
noncomputable def Qsqrt.interp (a : Qsqrt) : ℝ :=
  (a.num : ℝ) / Real.sqrt (a.den : ℝ)

/-- Decidable comparison `a.num/√a.den ≤ b.num/√b.den`, by sign analysis
and squaring (the radicands are positive by construction). -/
def qsLe (a b : Qsqrt) : Bool :=
  if 0 < a.num then
    decide (0 < b.num) && decide (a.num ^ 2 * b.den ≤ b.num ^ 2 * a.den)
  else
    decide (0 ≤ b.num) || decide (b.num ^ 2 * a.den ≤ a.num ^ 2 * b.den)

/-- One row of the monthly series `meses`: the (year, month) key, summed
sales, averaged raw factors, month-over-month percentage change (`none` on
the first row) and the per-factor standardized values. -/
structure MonthlyRow where
  ym : Nat × Nat
  vendas : ℚ
  fat : Fator → ℚ
  mom : Option ℚ
  z : Fator → Qsqrt

/-- Chronological (lexicographic) order on (year, month) keys, the order by
which pandas sorts the `Data` index. -/
def ymLE (a b : Nat × Nat) : Prop :=
  a.1 < b.1 ∨ (a.1 = b.1 ∧ a.2 ≤ b.2)

instance : DecidableRel ymLE := fun a b => by
  unfold ymLE; infer_instance

/-- Strict chronological order on (year, month) keys. -/
def ymLT (a b : Nat × Nat) : Prop :=
  a.1 < b.1 ∨ (a.1 = b.1 ∧ a.2 < b.2)

instance : DecidableRel ymLT := fun a b => by
  unfold ymLT; infer_instance

instance : IsTotal (Nat × Nat) ymLE :=
  ⟨fun a b => by
    unfold ymLE
    rcases Nat.lt_trichotomy a.1 b.1 with h | h | h
    · exact Or.inl (Or.inl h)
    · rcases Nat.le_total a.2 b.2 with h2 | h2
      · exact Or.inl (Or.inr ⟨h, h2⟩)
      · exact Or.inr (Or.inr ⟨h.symm, h2⟩)
    · exact Or.inr (Or.inl h)⟩

instance : IsTrans (Nat × Nat) ymLE :=
  ⟨fun a b c hab hbc => by
    unfold ymLE at *
    rcases hab with h1 | ⟨h1, h1'⟩ <;> rcases hbc with h2 | ⟨h2, h2'⟩
    · exact Or.inl (h1.trans h2)
    · exact Or.inl (h2 ▸ h1)
    · exact Or.inl (h1 ▸ h2)
    · exact Or.inr ⟨h1.trans h2, h1'.trans h2'⟩⟩

instance : IsAntisymm (Nat × Nat) ymLE :=
  ⟨fun a b hab hba => by
    unfold ymLE at *
    rcases hab with h1 | ⟨h1, h1'⟩ <;> rcases hba with h2 | ⟨h2, h2'⟩
    · exact absurd (h1.trans h2) (lt_irrefl _)
    · exact absurd h1 (h2 ▸ lt_irrefl _)
    · exact absurd h2 (h1 ▸ lt_irrefl _)
    · exact Prod.ext h1 (le_antisymm h1' h2')⟩

/-- The resolved month of a row, read off the `Data` column (`none` = NaT). -/
def getData (r : Linha) : Option (Nat × Nat) :=
  match getCell r "Data" with
  | .data ym => some ym
  | _ => none

/-- Arithmetic mean of a list of rationals (0 for the empty list, which the
grouping never produces: every group key comes from at least one row). -/
def media (l : List ℚ) : ℚ :=
  l.sum / (l.length : ℚ)

/-- Centered sum of squares `Σ (x - mean)²` of a column. -/
def somaQuad (l : List ℚ) : ℚ :=
  (l.map (fun x => (x - media l) ^ 2)).sum

/-- Centered cross sum `Σ (x - mean x)(y - mean y)` of two columns. -/
def somaCruz (x y : List ℚ) : ℚ :=
  ((x.zip y).map (fun p => (p.1 - media x) * (p.2 - media y))).sum

/-- Standardize one monthly column, as `_prep_mensal` does:
`(col - col.mean()) / col.std(ddof=0)` when the population standard
deviation is positive, and the constant 0 column otherwise.  The population
variance is `somaQuad / n` (divisor `n`, not `n - 1`). -/
def zColuna (xs : List ℚ) : List Qsqrt :=
  if h : 0 < somaQuad xs / (xs.length : ℚ) then
    xs.map (fun x => ⟨x - media xs, somaQuad xs / (xs.length : ℚ), h⟩)
  else
    xs.map (fun _ => ⟨0, 1, one_pos⟩)

/-- The six aggregated columns of `_prep_mensal`, reading a grouped month:
summed sales and averaged factors. -/
structure BaseRow where
  ym : Nat × Nat
  vendas : ℚ
  fat : Fator → ℚ

/-- The sorted distinct month keys of a frame (pandas `groupby` sorts the
keys and drops rows whose key is NaT). -/
def chavesMes (rows : List Linha) : List (Nat × Nat) :=
  List.insertionSort ymLE (rows.filterMap getData).dedup

/-- Group and aggregate one month: sales are summed, factors averaged. -/
def agruparMes (rows : List Linha) (ym : Nat × Nat) : BaseRow :=
  let g := rows.filter (fun r => getData r == some ym)
  { ym := ym
    vendas := (g.map (fun r => toNumeric (getCell r "Vendas"))).sum
    fat := fun f => media (g.map (fun r => toNumeric (getCell r (colFator f)))) }

/-- Decorate the aggregated rows with the derived columns: the
month-over-month percentage change `meses["Vendas"].pct_change() * 100`
(i.e. `(cur/prev - 1) * 100`, `none` on the first row) and the per-factor
z-score columns. -/
def decorar (base : List BaseRow) : List MonthlyRow :=
  let zs : Fator → List Qsqrt := fun f => zColuna (base.map (fun b => b.fat f))
  ((base.zip ((none : Option BaseRow) :: base.map some)).enum).map
    (fun p =>
      { ym := p.2.1.ym
        vendas := p.2.1.vendas
        fat := p.2.1.fat
        mom := p.2.2.map (fun prev => (p.2.1.vendas / prev.vendas - 1) * 100)
        z := fun f => ((zs f).getD p.1 ⟨0, 1, one_pos⟩) })

/-- The six numeric columns ensured and coerced by `_prep_mensal` (this is
the in-place mutation of the frame passed in). -/
def seisCols : List String :=
  ["Vendas", "Preco_Medio", "Concorrencia_Promocoes", "Faltas_Func",
   "Investimento_Marketing", "Estoque_Perc"]

/-- The frame after `_prep_mensal`'s numeric-column fixup: each of the six
columns is created as zero when missing and coerced to numbers (this is the
in-place mutation applied to the frame passed in). -/
def coagido (df : Frame) : Frame :=
  seisCols.foldl coagir df

/-- The monthly series produced by `_prep_mensal` from a frame: group the
coerced rows by the resolved month, aggregate, and decorate with the
percentage change and z-scores. -/
def mesesDe (df : Frame) : List MonthlyRow :=
  decorar ((chavesMes (coagido df).rows).map (agruparMes (coagido df).rows))

/-- `_prep_mensal` in full: the frame it leaves behind (it mutates the
frame passed in, via the column fixup of `coagido`) together with the
monthly series it returns. -/
def prepMensal (df : Frame) : Frame × List MonthlyRow :=
  (coagido df, mesesDe df)

/-- The Pearson correlation of monthly sales with one factor column, in
exact form: with `Svv`, `Sff`, `Svf` the centered (co)variance sums, the
correlation is `Svf / √(Svv·Sff)` when both variances are positive, and
undefined (NaN in the source) otherwise. -/
def corrOf (meses : List MonthlyRow) (f : Fator) : Option Qsqrt :=
  let vs := meses.map (fun r => r.vendas)
  let xs := meses.map (fun r => r.fat f)
  if h : 0 < somaQuad vs ∧ 0 < somaQuad xs then
    some ⟨somaCruz vs xs, somaQuad vs * somaQuad xs, mul_pos h.1 h.2⟩
  else none

/-- Descending order with NaN last, as `sort_values(ascending=False)`
places values (`na_position="last"`): a defined value precedes an undefined
one; two defined values compare by `≥` of the represented reals. -/
def rankLeB (x y : Option Qsqrt) : Bool :=
  match x, y with
  | _, none => true
  | none, some _ => false
  | some a, some b => qsLe b a

/-- The propositional form of `rankLeB`, for the sorting lemmas. -/
def rankR (p q : Fator × Option Qsqrt) : Prop :=
  rankLeB p.2 q.2 = true

instance : DecidableRel rankR := fun p q => by
  unfold rankR; infer_instance

/-- The ranked correlation table `corr_vendas`: each factor with its
correlation against sales, sorted descending (stably, NaN last). -/
def corrVendas (meses : List MonthlyRow) : List (Fator × Option Qsqrt) :=
  List.insertionSort rankR (fatores.map (fun f => (f, corrOf meses f)))

/-- One row of the contribution table: factor, `Δ fator`, `Coef_β`, and
`Contrib_Estimada = β · Δ`. -/
abbrev LinhaContrib := Fator × ℚ × ℚ × ℚ

/-- Sorting order of the contribution table: descending absolute value of
the estimated contribution. -/
def contribGE (p q : LinhaContrib) : Prop :=
  |q.2.2.2| ≤ |p.2.2.2|

instance : DecidableRel contribGE := fun p q => by
  unfold contribGE; infer_instance

instance : IsTotal LinhaContrib contribGE :=
  ⟨fun p q => le_total |q.2.2.2| |p.2.2.2|⟩

instance : IsTrans LinhaContrib contribGE :=
  ⟨fun _ _ _ h1 h2 => le_trans h2 h1⟩

/-- The contribution table of `diagnostico_mes`: per-factor rows sorted by
descending `|Contrib_Estimada|`, plus the synthetic `__TOTAL__` row holding
the sum of the estimated contributions and the real observed sales delta.
(In the source the total row reuses the `Δ fator` column for the real
delta; it is kept as a separate field here.) -/
structure ContribTable where
  linhas : List LinhaContrib
  totalContrib : ℚ
  totalDelta : ℚ

/-- Build the contribution table for a located target/predecessor pair and
a coefficient vector `β` (one coefficient per factor, `beta[1:]` of the
least-squares solution). -/
def tabelaContrib (alvo prev : MonthlyRow) (beta : Fator → ℚ) : ContribTable :=
  let base : List LinhaContrib :=
    fatores.map (fun f =>
      (f, alvo.fat f - prev.fat f, beta f, beta f * (alvo.fat f - prev.fat f)))
  { linhas := List.insertionSort contribGE base
    totalContrib := (base.map (fun p => p.2.2.2)).sum
    totalDelta := alvo.vendas - prev.vendas }

/-- The delta-decomposition step of `diagnostico_mes`: locate the target
(year, month) in the series (`none` when absent), return `none` when it is
the first row (no predecessor), and otherwise build the contribution table
against the immediately preceding row. -/
def decompor (meses : List MonthlyRow) (beta : Fator → ℚ) (ano mes : Nat) :
    Option ContribTable :=
  match meses.findIdx? (fun r => r.ym.1 == ano && r.ym.2 == mes) with
  | none => none
  | some i =>
    if i = 0 then none
    else
      match meses[i]?, meses[i-1]? with
      | some alvo, some prev => some (tabelaContrib alvo prev beta)
      | _, _ => none

/-- `diagnostico_mes`, with the numeric least-squares routine
(`np.linalg.lstsq`) abstracted as the `solver` argument returning the
intercept and the factor coefficients (its contract is verified
separately).  Returns the source's triple: the monthly series, the
correlation ranking and the optional contribution table.  (The in-place
mutation `_prep_mensal` applies to the frame passed in is `coagido`.) -/
def diagnosticoMes (solver : List MonthlyRow → ℚ × (Fator → ℚ))
    (df : Frame) (ano mes : Nat) :
    List MonthlyRow × List (Fator × Option Qsqrt) × Option ContribTable :=
  (mesesDe df, corrVendas (mesesDe df),
   decompor (mesesDe df) (solver (mesesDe df)).2 ano mes)

/-- `sintetizar_metricas`: total sales and mean price per month, sorted
chronologically, together with the first row attaining the maximum total
(`idxmax` returns the first maximizer). -/
def sintetizarMetricas (df : Frame) :
    List ((Nat × Nat) × ℚ × ℚ) × Option ((Nat × Nat) × ℚ × ℚ) :=
  let porData := (List.insertionSort ymLE (df.rows.filterMap getData).dedup).map
    (fun ym =>
      let g := df.rows.filter (fun r => getData r == some ym)
      (ym, (g.map (fun r => toNumeric (getCell r "Vendas"))).sum,
       media (g.map (fun r => toNumeric (getCell r "Preco_Medio")))))
  (porData,
   porData.foldl
     (fun acc x =>
       match acc with
       | none => some x
       | some m => if m.2.1 < x.2.1 then some x else some m)
     none)

/-- The whole analysis run on one input mapping, for one target month:
load, summarize, and diagnose.  The solver is abstracted as in
`diagnosticoMes`. -/
def pipeline (solver : List MonthlyRow → ℚ × (Fator → ℚ))
    (planilhas : List (String × List Linha)) (ano mes : Nat) :
    Except Erro
      ((List ((Nat × Nat) × ℚ × ℚ) × Option ((Nat × Nat) × ℚ × ℚ)) ×
       List MonthlyRow × List (Fator × Option Qsqrt) × Option ContribTable) :=
  match carregar_dados planilhas with
  | .error e => .error e
  | .ok df => .ok (sintetizarMetricas df, diagnosticoMes solver df ano mes)

/-- The factor attached to column `j ≥ 1` of the regression design matrix
(column 0 is the intercept). -/
def fatorColuna (j : Fin 6) : Fator :=
  fatores.getD (j.val - 1) .preco

/-- The design matrix of the regression `Vendas ~ 1 + five factors` built
by `diagnostico_mes`: a column of ones prepended to the raw monthly factor
columns. -/
def designMatrix (meses : List MonthlyRow) :
    Matrix (Fin meses.length) (Fin 6) ℝ :=
  fun i j => if j = 0 then 1 else ((meses.get i).fat (fatorColuna j) : ℝ)

/-- The regression target: the monthly sales column. -/
def vendasVec (meses : List MonthlyRow) : Fin meses.length → ℝ :=
  fun i => ((meses.get i).vendas : ℝ)

/-- Sum of squared residuals of a candidate coefficient vector. -/
def ssr {m n : Nat} (X : Matrix (Fin m) (Fin n) ℝ) (y : Fin m → ℝ)
    (b : Fin n → ℝ) : ℝ :=
  ∑ i, (X.mulVec b i - y i) ^ 2

/-- Squared Euclidean norm of a coefficient vector. -/
def normSq {n : Nat} (b : Fin n → ℝ) : ℝ :=
  ∑ j, b j ^ 2

/-- `b` is the minimum-norm least-squares solution of `X b ≈ y`: it
minimizes the sum of squared residuals, and among all minimizers it has the
smallest Euclidean norm.  This is the documented contract of
`np.linalg.lstsq` with `rcond=None`. -/
def IsMinNormLSQ {m n : Nat} (X : Matrix (Fin m) (Fin n) ℝ) (y : Fin m → ℝ)
    (b : Fin n → ℝ) : Prop :=
  (∀ c, ssr X y b ≤ ssr X y c) ∧
  (∀ c, (∀ c', ssr X y c ≤ ssr X y c') → normSq b ≤ normSq c)

/-- The real value of an optional correlation, with `none` (NaN) read as an
extra bottom element for the ranking order. -/
def rankLeR (x y : Option Qsqrt) : Prop :=
  match x, y with
  | _, none => True
  | none, some _ => False
  | some a, some b => b.interp ≤ a.interp

/-- Mean of a list of reals (spec-side formula). -/
noncomputable def mediaR (l : List ℝ) : ℝ :=
  l.sum / (l.length : ℝ)

/-- Population variance of a list of reals (divisor = count). -/
noncomputable def varPopR (l : List ℝ) : ℝ :=
  (l.map (fun x => (x - mediaR l) ^ 2)).sum / (l.length : ℝ)

/-- Population covariance of two lists of reals (divisor = count). -/
noncomputable def covPopR (x y : List ℝ) : ℝ :=
  ((x.zip y).map (fun p => (p.1 - mediaR x) * (p.2 - mediaR y))).sum / (x.length : ℝ)

/-- The Pearson correlation coefficient, written as the spec states it:
covariance over the product of standard deviations. -/
noncomputable def pearsonR (x y : List ℝ) : ℝ :=
  covPopR x y / (Real.sqrt (varPopR x) * Real.sqrt (varPopR y))

/-- The column list produced by one `coagir` step (columns only). -/
def coagirCols (cols : List String) (c : String) : List String :=
  if cols.contains c then cols else cols ++ [c]

/-- The row transformation produced by one `coagir` step: create the column
as 0 when the frame does not have it, then coerce it to a number. -/
def coagirRow (cols : List String) (c : String) (r : Linha) : Linha :=
  let r1 := if cols.contains c then r else setCell r c (.num 0)
  setCell r1 c (.num (toNumeric (getCell r1 c)))

/-- Whether an optional cell holds a numeric value. -/
def isNumCell : Option Celula → Bool
  | some (.num _) => true
  | _ => false

/-- A trivial stand-in for the least-squares solver, used when evaluating
the pipeline at inputs whose coefficient values do not matter. -/
def solver0 : List MonthlyRow → ℚ × (Fator → ℚ) :=
  fun _ => (0, fun _ => 0)

/-- Concrete fixture: one recognized sheet with the spec's 4-month sales
series [100, 150, 90, 90], plus an unrecognized sheet. -/
def exPl : List (String × List Linha) :=
  [("Loja_A",
    [[("Mês", .texto "Jan/2020"), ("Vendas", .num 100), ("Preço_Médio", .num 10)],
     [("Mês", .texto "Fev/2020"), ("Vendas", .num 150), ("Preço_Médio", .num 12)],
     [("Mês", .texto "Mar/2020"), ("Vendas", .num 90), ("Preço_Médio", .num 11)],
     [("Mês", .texto "Abr/2020"), ("Vendas", .num 90), ("Preço_Médio", .num 11)]]),
   ("Loja_Z", [[("Mês", .texto "Jan/2020"), ("Vendas", .num 999)]])]

/-- The same fixture with the unrecognized sheet replaced by a different
one: the recognized sheets agree with `exPl`. -/
def exPlB : List (String × List Linha) :=
  [("Loja_A",
    [[("Mês", .texto "Jan/2020"), ("Vendas", .num 100), ("Preço_Médio", .num 10)],
     [("Mês", .texto "Fev/2020"), ("Vendas", .num 150), ("Preço_Médio", .num 12)],
     [("Mês", .texto "Mar/2020"), ("Vendas", .num 90), ("Preço_Médio", .num 11)],
     [("Mês", .texto "Abr/2020"), ("Vendas", .num 90), ("Preço_Médio", .num 11)]]),
   ("Loja_W", [[("Mês", .texto "Dez/2021"), ("Vendas", .num 5), ("Extra", .num 7)]])]

/-- Concrete fixture with an unparseable month label and a non-numeric
sales cell. -/
def exPl2 : List (String × List Linha) :=
  [("Loja_B",
    [[("Mês", .texto "Jan/2020"), ("Vendas", .num 10)],
     [("Mês", .texto "XYZ"), ("Vendas", .num 50)],
     [("Mês", .texto "Fev/2020"), ("Vendas", .texto "abc")]])]

/-- Concrete fixture with no recognized sheet at all. -/
def exPlZ : List (String × List Linha) :=
  [("Loja_Z", [[("Mês", .texto "Jan/2020"), ("Vendas", .num 1)]])]

/-- A concrete frame as it reaches `_prep_mensal`: resolved `Data` column
and the 4-month sales series [100, 150, 90, 90] of the spec's fixture. -/
def exDf4 : Frame :=
  ⟨["Data", "Vendas", "Preco_Medio"],
   [[("Data", .data (2020, 1)), ("Vendas", .num 100), ("Preco_Medio", .num 10)],
    [("Data", .data (2020, 2)), ("Vendas", .num 150), ("Preco_Medio", .num 12)],
    [("Data", .data (2020, 3)), ("Vendas", .num 90), ("Preco_Medio", .num 11)],
    [("Data", .data (2020, 4)), ("Vendas", .num 90), ("Preco_Medio", .num 11)]]⟩

/-- A concrete frame carrying all six numeric columns with numeric cells
(the case in which `_prep_mensal`'s column fixup is the identity). -/
def exDfFull : Frame :=
  ⟨["Data", "Vendas", "Preco_Medio", "Concorrencia_Promocoes", "Faltas_Func",
    "Investimento_Marketing", "Estoque_Perc"],
   [[("Data", .data (2020, 1)), ("Vendas", .num 100), ("Preco_Medio", .num 10),
     ("Concorrencia_Promocoes", .num 1), ("Faltas_Func", .num 2),
     ("Investimento_Marketing", .num 3), ("Estoque_Perc", .num 4)],
    [("Data", .data (2020, 2)), ("Vendas", .num 150), ("Preco_Medio", .num 12),
     ("Concorrencia_Promocoes", .num 2), ("Faltas_Func", .num 1),
     ("Investimento_Marketing", .num 5), ("Estoque_Perc", .num 6)]]⟩

/-! ## Helper lemmas: the exact `q/√d` comparison agrees with the reals -/

theorem sqrtDen_pos (a : Qsqrt) : (0 : ℝ) < Real.sqrt (a.den : ℝ) :=
  Real.sqrt_pos.2 (by exact_mod_cast a.dpos)

theorem qsLe_iff (a b : Qsqrt) : qsLe a b = true ↔ a.interp ≤ b.interp := by
  have hsa := sqrtDen_pos a
  have hsb := sqrtDen_pos b
  have hda : (0 : ℝ) ≤ (a.den : ℝ) := le_of_lt (by exact_mod_cast a.dpos)
  have hdb : (0 : ℝ) ≤ (b.den : ℝ) := le_of_lt (by exact_mod_cast b.dpos)
  have hiff : a.interp ≤ b.interp ↔
      (a.num : ℝ) * Real.sqrt (b.den : ℝ) ≤ (b.num : ℝ) * Real.sqrt (a.den : ℝ) := by
    unfold Qsqrt.interp
    exact div_le_div_iff₀ hsa hsb
  rw [hiff]
  unfold qsLe
  have hsqa : Real.sqrt (a.den : ℝ) ^ 2 = (a.den : ℝ) := Real.sq_sqrt hda
  have hsqb : Real.sqrt (b.den : ℝ) ^ 2 = (b.den : ℝ) := Real.sq_sqrt hdb
  by_cases hpa : 0 < a.num
  · simp only [if_pos hpa, Bool.and_eq_true, decide_eq_true_eq]
    have hx : (0 : ℝ) < (a.num : ℝ) * Real.sqrt (b.den : ℝ) := by
      have : (0 : ℝ) < (a.num : ℝ) := by exact_mod_cast hpa
      positivity
    constructor
    · rintro ⟨hb, hsq⟩
      have hy : (0 : ℝ) < (b.num : ℝ) * Real.sqrt (a.den : ℝ) := by
        have : (0 : ℝ) < (b.num : ℝ) := by exact_mod_cast hb
        positivity
      have hsq' : ((a.num : ℝ)) ^ 2 * (b.den : ℝ) ≤ ((b.num : ℝ)) ^ 2 * (a.den : ℝ) := by
        exact_mod_cast hsq
      have h2 : ((a.num : ℝ) * Real.sqrt (b.den : ℝ)) ^ 2 ≤
          ((b.num : ℝ) * Real.sqrt (a.den : ℝ)) ^ 2 := by
        rw [mul_pow, mul_pow, hsqa, hsqb]; exact hsq'
      nlinarith [Real.sqrt_nonneg (a.den : ℝ), Real.sqrt_nonneg (b.den : ℝ)]
    · intro hle
      have hy : (0 : ℝ) < (b.num : ℝ) * Real.sqrt (a.den : ℝ) := lt_of_lt_of_le hx hle
      have hb : (0 : ℝ) < (b.num : ℝ) := by
        by_contra hcon
        push_neg at hcon
        nlinarith [Real.sqrt_nonneg (a.den : ℝ)]
      refine ⟨by exact_mod_cast hb, ?_⟩
      have h2 : ((a.num : ℝ) * Real.sqrt (b.den : ℝ)) ^ 2 ≤
          ((b.num : ℝ) * Real.sqrt (a.den : ℝ)) ^ 2 := by
        have h0 : (0 : ℝ) ≤ (a.num : ℝ) * Real.sqrt (b.den : ℝ) := le_of_lt hx
        nlinarith
      rw [mul_pow, mul_pow, hsqa, hsqb] at h2
      exact_mod_cast h2
  · simp only [if_neg hpa, Bool.or_eq_true, decide_eq_true_eq]
    push_neg at hpa
    have hxa : (a.num : ℝ) ≤ 0 := by exact_mod_cast hpa
    have hxneg : (a.num : ℝ) * Real.sqrt (b.den : ℝ) ≤ 0 :=
      mul_nonpos_of_nonpos_of_nonneg hxa (Real.sqrt_nonneg _)
    constructor
    · rintro (hb | hsq)
      · have : (0 : ℝ) ≤ (b.num : ℝ) := by exact_mod_cast hb
        have : (0 : ℝ) ≤ (b.num : ℝ) * Real.sqrt (a.den : ℝ) := by positivity
        linarith
      · have hsq' : ((b.num : ℝ)) ^ 2 * (a.den : ℝ) ≤ ((a.num : ℝ)) ^ 2 * (b.den : ℝ) := by
          exact_mod_cast hsq
        by_cases hb : (0 : ℝ) ≤ (b.num : ℝ)
        · have : (0 : ℝ) ≤ (b.num : ℝ) * Real.sqrt (a.den : ℝ) := by positivity
          linarith
        · push_neg at hb
          have h2 : ((b.num : ℝ) * Real.sqrt (a.den : ℝ)) ^ 2 ≤
              ((a.num : ℝ) * Real.sqrt (b.den : ℝ)) ^ 2 := by
            rw [mul_pow, mul_pow, hsqa, hsqb]; exact hsq'
          have hyneg : (b.num : ℝ) * Real.sqrt (a.den : ℝ) < 0 :=
            mul_neg_of_neg_of_pos hb hsa
          nlinarith
    · intro hle
      by_cases hb : 0 ≤ b.num
      · exact Or.inl hb
      · refine Or.inr ?_
        push_neg at hb
        have hbR : (b.num : ℝ) < 0 := by exact_mod_cast hb
        have h2 : ((b.num : ℝ) * Real.sqrt (a.den : ℝ)) ^ 2 ≤
            ((a.num : ℝ) * Real.sqrt (b.den : ℝ)) ^ 2 := by
          have hyneg : (b.num : ℝ) * Real.sqrt (a.den : ℝ) < 0 :=
            mul_neg_of_neg_of_pos hbR hsa
          nlinarith
        rw [mul_pow, mul_pow, hsqa, hsqb] at h2
        exact_mod_cast h2

theorem rankLeB_iff (x y : Option Qsqrt) : rankLeB x y = true ↔ rankLeR x y := by
  cases x <;> cases y <;> simp [rankLeB, rankLeR, qsLe_iff]

instance : IsTotal (Fator × Option Qsqrt) rankR :=
  ⟨fun p q => by
    unfold rankR
    rw [rankLeB_iff, rankLeB_iff]
    cases p.2 <;> cases q.2 <;> simp [rankLeR]
    exact le_total _ _⟩

instance : IsTrans (Fator × Option Qsqrt) rankR :=
  ⟨fun p q s hpq hqs => by
    unfold rankR at *
    rw [rankLeB_iff] at *
    cases hp : p.2 <;> cases hq : q.2 <;> cases hs : s.2 <;> simp_all [rankLeR]
    exact le_trans hqs hpq⟩

/-! ## Helper lemmas: stability of the sort used by `sort_values`

`pandas.sort_values` performs a stable sort (ties keep their original
order; with `ascending=False` the comparison, not the output, is reversed,
and NaNs go last).  `List.insertionSort` is stable, which the following
lemma records in the form needed here: when the input's key column is
strictly increasing, every pair of the output is either strictly ordered or
tied with the keys still increasing. -/

theorem pairwise_key_orderedInsert {α : Type} (r : α → α → Prop) [DecidableRel r]
    [IsTotal α r] [IsTrans α r] (key : α → Nat) (x : α) :
    ∀ m : List α, m.Pairwise (fun a b => r a b ∧ (r b a → key a < key b)) →
      (∀ y ∈ m, key x < key y) →
      (m.orderedInsert r x).Pairwise (fun a b => r a b ∧ (r b a → key a < key b)) := by
  intro m
  induction m with
  | nil => intro _ _; simp
  | cons y m ih =>
    intro hm hk
    rw [List.pairwise_cons] at hm
    rw [List.orderedInsert]
    by_cases hxy : r x y
    · rw [if_pos hxy]
      refine List.pairwise_cons.2 ⟨?_, List.pairwise_cons.2 ⟨hm.1, hm.2⟩⟩
      intro z hz
      rcases List.mem_cons.1 hz with h | h
      · subst h
        exact ⟨hxy, fun _ => hk z (List.mem_cons_self _ _)⟩
      · exact ⟨Trans.trans hxy (hm.1 z h).1, fun _ => hk z (List.mem_cons.2 (Or.inr h))⟩
    · rw [if_neg hxy]
      refine List.pairwise_cons.2 ⟨?_, ih hm.2 (fun z hz => hk z (List.mem_cons.2 (Or.inr hz)))⟩
      intro z hz
      rcases (List.mem_orderedInsert r).1 hz with h | h
      · subst h
        exact ⟨(total_of r z y).resolve_left hxy, fun hxz => absurd hxz hxy⟩
      · exact hm.1 z h

theorem pairwise_key_insertionSort {α : Type} (r : α → α → Prop) [DecidableRel r]
    [IsTotal α r] [IsTrans α r] (key : α → Nat) :
    ∀ l : List α, l.Pairwise (fun a b => key a < key b) →
      (l.insertionSort r).Pairwise (fun a b => r a b ∧ (r b a → key a < key b)) := by
  intro l
  induction l with
  | nil => intro _; simp
  | cons x l ih =>
    intro hl
    rw [List.pairwise_cons] at hl
    rw [List.insertionSort]
    refine pairwise_key_orderedInsert r key x _ (ih hl.2) ?_
    intro y hy
    exact hl.1 y ((List.mem_insertionSort r).1 hy)

/-! ## Helper lemmas: structure of the decorated monthly series -/

theorem decorar_length (base : List BaseRow) : (decorar base).length = base.length := by
  unfold decorar
  simp

theorem decorar_get (base : List BaseRow) (i : Nat) (hi : i < base.length) :
    getElem (decorar base) i (by rw [decorar_length]; exact hi) =
      { ym := base[i].ym
        vendas := base[i].vendas
        fat := base[i].fat
        mom := (getElem ((none : Option BaseRow) :: base.map some) i (by simpa using Nat.lt_succ_of_lt hi)).map
                 (fun prev => (base[i].vendas / prev.vendas - 1) * 100)
        z := fun f => ((zColuna (base.map (fun b => b.fat f))).getD i ⟨0, 1, one_pos⟩) } := by
  unfold decorar
  have hz : i < (base.zip ((none : Option BaseRow) :: base.map some)).length := by
    simpa using hi
  rw [List.getElem_map, List.getElem_enum, List.getElem_zip]

theorem decorar_vendas (base : List BaseRow) (i : Nat) (hi : i < base.length) :
    (getElem (decorar base) i (by rw [decorar_length]; exact hi)).vendas = base[i].vendas := by
  rw [decorar_get base i hi]

theorem decorar_ym (base : List BaseRow) (i : Nat) (hi : i < base.length) :
    (getElem (decorar base) i (by rw [decorar_length]; exact hi)).ym = base[i].ym := by
  rw [decorar_get base i hi]

theorem decorar_fat (base : List BaseRow) (i : Nat) (hi : i < base.length) :
    (getElem (decorar base) i (by rw [decorar_length]; exact hi)).fat = base[i].fat := by
  rw [decorar_get base i hi]

theorem decorar_mom_zero (base : List BaseRow) (h0 : 0 < base.length) :
    (getElem (decorar base) 0 (by rw [decorar_length]; exact h0)).mom = none := by
  rw [decorar_get base 0 h0]
  simp

theorem decorar_mom_succ (base : List BaseRow) (i : Nat) (hi : i + 1 < base.length) :
    (getElem (decorar base) (i+1) (by rw [decorar_length]; exact hi)).mom =
      some ((base[i+1].vendas / (getElem base i (Nat.lt_of_succ_lt hi)).vendas - 1) * 100) := by
  rw [decorar_get base (i+1) hi]
  simp

theorem decorar_z (base : List BaseRow) (i : Nat) (hi : i < base.length) (f : Fator) :
    (getElem (decorar base) i (by rw [decorar_length]; exact hi)).z f =
      (zColuna (base.map (fun b => b.fat f))).getD i ⟨0, 1, one_pos⟩ := by
  rw [decorar_get base i hi]

theorem decorar_mom_zero_get (base : List BaseRow)
    (h0 : 0 < (decorar base).length) :
    ((decorar base).get ⟨0, h0⟩).mom = none := by
  rw [List.get_eq_getElem]
  exact decorar_mom_zero base (by rw [← decorar_length]; exact h0)

theorem decorar_mom_succ_get (base : List BaseRow) (i : Nat)
    (hi : i + 1 < (decorar base).length)
    (hv : ((decorar base).get ⟨i, Nat.lt_of_succ_lt hi⟩).vendas ≠ 0) :
    ((decorar base).get ⟨i + 1, hi⟩).mom =
      some ((((decorar base).get ⟨i + 1, hi⟩).vendas -
             ((decorar base).get ⟨i, Nat.lt_of_succ_lt hi⟩).vendas) /
            ((decorar base).get ⟨i, Nat.lt_of_succ_lt hi⟩).vendas * 100) := by
  have hib : i + 1 < base.length := by rw [← decorar_length]; exact hi
  simp only [List.get_eq_getElem] at hv ⊢
  rw [decorar_mom_succ base i hib, decorar_vendas base (i+1) hib,
    decorar_vendas base i (Nat.lt_of_succ_lt hib)]
  rw [decorar_vendas base i (Nat.lt_of_succ_lt hib)] at hv
  congr 1
  field_simp

theorem decorar_vendas_get (base : List BaseRow) (i : Nat)
    (hi : i < (decorar base).length) :
    ((decorar base).get ⟨i, hi⟩).vendas =
      (base.get ⟨i, by rw [← decorar_length]; exact hi⟩).vendas := by
  simp only [List.get_eq_getElem]
  exact decorar_vendas base i (by rw [← decorar_length]; exact hi)

theorem decorar_fat_get (base : List BaseRow) (i : Nat)
    (hi : i < (decorar base).length) :
    ((decorar base).get ⟨i, hi⟩).fat =
      (base.get ⟨i, by rw [← decorar_length]; exact hi⟩).fat := by
  simp only [List.get_eq_getElem]
  exact decorar_fat base i (by rw [← decorar_length]; exact hi)

theorem decorar_z_get (base : List BaseRow) (i : Nat)
    (hi : i < (decorar base).length) (f : Fator) :
    ((decorar base).get ⟨i, hi⟩).z f =
      (zColuna (base.map (fun b => b.fat f))).getD i ⟨0, 1, one_pos⟩ := by
  simp only [List.get_eq_getElem]
  exact decorar_z base i (by rw [← decorar_length]; exact hi) f

/-! ## Helper lemmas: z-score columns -/

theorem zColuna_length (xs : List ℚ) : (zColuna xs).length = xs.length := by
  unfold zColuna
  split <;> simp

theorem zColuna_getD_pos (xs : List ℚ) (h : 0 < somaQuad xs / (xs.length : ℚ))
    (i : Nat) (hi : i < xs.length) (d : Qsqrt) :
    (zColuna xs).getD i d = ⟨xs[i] - media xs, somaQuad xs / (xs.length : ℚ), h⟩ := by
  have hlen : i < (zColuna xs).length := by rw [zColuna_length]; exact hi
  rw [List.getD_eq_getElem _ _ hlen]
  unfold zColuna
  simp only [dif_pos h]
  rw [List.getElem_map]

theorem zColuna_getD_nonpos (xs : List ℚ) (h : ¬ 0 < somaQuad xs / (xs.length : ℚ))
    (i : Nat) (hi : i < xs.length) (d : Qsqrt) :
    (zColuna xs).getD i d = ⟨0, 1, one_pos⟩ := by
  have hlen : i < (zColuna xs).length := by rw [zColuna_length]; exact hi
  rw [List.getD_eq_getElem _ _ hlen]
  unfold zColuna
  simp only [dif_neg h]
  rw [List.getElem_map]

theorem interp_zero : (Qsqrt.interp ⟨0, 1, one_pos⟩) = 0 := by
  unfold Qsqrt.interp
  simp

/-! ## Helper lemmas: sums of squares and constancy -/

theorem sum_sq_nonneg (l : List ℚ) : 0 ≤ (l.map (fun x => x ^ 2)).sum := by
  induction l with
  | nil => simp
  | cons a l ih => simpa using add_nonneg (sq_nonneg a) ih

theorem sum_sq_eq_zero_iff (l : List ℚ) :
    (l.map (fun x => x ^ 2)).sum = 0 ↔ ∀ x ∈ l, x = 0 := by
  induction l with
  | nil => simp
  | cons a l ih =>
    simp only [List.map_cons, List.sum_cons, List.mem_cons]
    constructor
    · intro h
      have h1 : a ^ 2 = 0 ∧ (l.map (fun x => x ^ 2)).sum = 0 := by
        constructor <;> nlinarith [sq_nonneg a, sum_sq_nonneg l]
      intro x hx
      rcases hx with rfl | hx
      · exact pow_eq_zero_iff (n := 2) (by norm_num) |>.1 h1.1
      · exact ih.1 h1.2 x hx
    · intro h
      have ha : a = 0 := h a (Or.inl rfl)
      have hl : ∀ x ∈ l, x = 0 := fun x hx => h x (Or.inr hx)
      rw [ha, ih.2 hl]
      norm_num

theorem somaQuad_nonneg (xs : List ℚ) : 0 ≤ somaQuad xs := by
  unfold somaQuad
  have := sum_sq_nonneg (xs.map (fun x => x - media xs))
  simpa [List.map_map, Function.comp] using this

theorem somaQuad_eq_zero_iff (xs : List ℚ) :
    somaQuad xs = 0 ↔ ∀ x ∈ xs, x = media xs := by
  unfold somaQuad
  have h := sum_sq_eq_zero_iff (xs.map (fun x => x - media xs))
  rw [List.map_map] at h
  constructor
  · intro h0 x hx
    have := (h.1 (by simpa [Function.comp] using h0)) (x - media xs)
      (List.mem_map.2 ⟨x, hx, rfl⟩)
    linarith
  · intro hc
    have : ∀ y ∈ xs.map (fun x => x - media xs), y = 0 := by
      intro y hy
      rcases List.mem_map.1 hy with ⟨x, hx, rfl⟩
      exact sub_eq_zero_of_eq (hc x hx)
    simpa [Function.comp] using h.2 this

theorem constante_iff_somaQuad_zero (xs : List ℚ) :
    (∀ x ∈ xs, ∀ y ∈ xs, x = y) ↔ somaQuad xs = 0 := by
  rw [somaQuad_eq_zero_iff]
  constructor
  · intro hc
    cases xs with
    | nil => simp
    | cons a l =>
      intro x hx
      have hx0 : x = a := hc x hx a (List.mem_cons_self a l)
      have hall : ∀ y ∈ a :: l, y = a := fun y hy => hc y hy a (List.mem_cons_self a l)
      have hsum : (a :: l).sum = ((a :: l).length : ℚ) * a := by
        rw [List.sum_eq_card_nsmul (a :: l) a hall]
        simp [nsmul_eq_mul]
      have hlen : ((a :: l).length : ℚ) ≠ 0 := by
        rw [List.length_cons]
        exact_mod_cast Nat.succ_ne_zero l.length
      unfold media
      rw [hsum, hx0]
      field_simp
  · intro hm x hx y hy
    rw [hm x hx, hm y hy]

/-! ## Helper lemmas: sorted distinct month keys -/

theorem chavesMes_sorted (rows : List Linha) : (chavesMes rows).Pairwise ymLE :=
  List.sorted_insertionSort ymLE _

theorem chavesMes_nodup (rows : List Linha) : (chavesMes rows).Nodup :=
  ((List.perm_insertionSort ymLE _).nodup_iff).2 (List.nodup_dedup _)

theorem chavesMes_pairwise_lt (rows : List Linha) :
    (chavesMes rows).Pairwise ymLT := by
  have h := (chavesMes_sorted rows).and (chavesMes_nodup rows)
  refine h.imp ?_
  rintro a b ⟨hle, hne⟩
  rcases hle with h1 | ⟨h1, h2⟩
  · exact Or.inl h1
  · refine Or.inr ⟨h1, lt_of_le_of_ne h2 ?_⟩
    intro h3
    exact hne (Prod.ext h1 h3)

theorem chavesMes_mem (rows : List Linha) (ym : Nat × Nat) :
    ym ∈ chavesMes rows ↔ ∃ r ∈ rows, getData r = some ym := by
  unfold chavesMes
  rw [List.mem_insertionSort, List.mem_dedup, List.mem_filterMap]

/-! ## Helper: existence and uniqueness of the minimum-norm least-squares
solution (the contract of `np.linalg.lstsq` with `rcond=None`) -/

open RealInnerProductSpace in
theorem existsUnique_IsMinNormLSQ {m n : Nat} (X : Matrix (Fin m) (Fin n) ℝ)
    (y : Fin m → ℝ) : ∃! b : Fin n → ℝ, IsMinNormLSQ X y b := by
  classical
  let E := EuclideanSpace ℝ (Fin n)
  let F := EuclideanSpace ℝ (Fin m)
  let f : E →ₗ[ℝ] F :=
    (WithLp.linearEquiv 2 ℝ (Fin m → ℝ)).symm.toLinearMap ∘ₗ
      X.mulVecLin ∘ₗ (WithLp.linearEquiv 2 ℝ (Fin n → ℝ)).toLinearMap
  have hf : ∀ (b : Fin n → ℝ) (i : Fin m), f b i = X.mulVec b i := fun b i => rfl
  have hnormF : ∀ v : F, ‖v‖ ^ 2 = ∑ i, v i ^ 2 := by
    intro v
    rw [← real_inner_self_eq_norm_sq]
    rw [PiLp.inner_apply]
    apply Finset.sum_congr rfl
    intro i _
    simp [sq]
  have hnormE : ∀ v : E, ‖v‖ ^ 2 = ∑ j, v j ^ 2 := by
    intro v
    rw [← real_inner_self_eq_norm_sq]
    rw [PiLp.inner_apply]
    apply Finset.sum_congr rfl
    intro j _
    simp [sq]
  let yF : F := y
  let K : Submodule ℝ F := LinearMap.range f
  let p : F := ↑(orthogonalProjection K yF)
  have hpK : p ∈ K := SetLike.coe_mem _
  obtain ⟨b0, hb0⟩ : ∃ b0 : E, f b0 = p := LinearMap.mem_range.1 hpK
  let L : Submodule ℝ E := LinearMap.ker f
  let bm : E := b0 - ↑(orthogonalProjection L b0)
  have hbm_perp : bm ∈ Lᗮ := sub_orthogonalProjection_mem_orthogonal b0
  have hfbm : f bm = p := by
    have hker : (↑(orthogonalProjection L b0) : E) ∈ L := SetLike.coe_mem _
    rw [LinearMap.mem_ker] at hker
    show f (b0 - ↑(orthogonalProjection L b0)) = p
    rw [map_sub, hb0, hker, sub_zero]
  have hssr : ∀ c : Fin n → ℝ, ssr X y c = ‖f c - yF‖ ^ 2 := by
    intro c
    rw [hnormF]
    apply Finset.sum_congr rfl
    intro i _
    rfl
  have horthK : yF - p ∈ Kᗮ := sub_orthogonalProjection_mem_orthogonal yF
  have hdecomp : ∀ c : E, ‖f c - yF‖ ^ 2 = ‖f c - p‖ ^ 2 + ‖yF - p‖ ^ 2 := by
    intro c
    have h1 : f c - yF = (f c - p) - (yF - p) := by abel
    rw [h1, norm_sub_sq_real]
    have hz : ⟪f c - p, yF - p⟫ = 0 :=
      Submodule.inner_right_of_mem_orthogonal
        (Submodule.sub_mem K (LinearMap.mem_range_self f c) hpK) horthK
    rw [hz]
    ring
  have hmin_iff : ∀ c : Fin n → ℝ, (∀ c', ssr X y c ≤ ssr X y c') ↔ f c = p := by
    intro c
    constructor
    · intro hc
      have h1 := hc bm
      rw [hssr, hssr, hdecomp, hdecomp, hfbm, sub_self, norm_zero] at h1
      have h2 : ‖f c - p‖ ^ 2 ≤ 0 := by nlinarith
      have h3 : ‖f c - p‖ = 0 := by nlinarith [norm_nonneg (f c - p), sq_nonneg ‖f c - p‖]
      have h4 : f c - p = 0 := norm_eq_zero.1 h3
      exact sub_eq_zero.1 h4
    · intro hc c'
      rw [hssr, hssr, hdecomp, hdecomp, hc, sub_self, norm_zero]
      nlinarith [norm_nonneg (f c' - p), sq_nonneg ‖f c' - p‖]
  let toE : (Fin n → ℝ) → E := fun v => (WithLp.equiv 2 (Fin n → ℝ)).symm v
  have hnsq : ∀ c : Fin n → ℝ, normSq c = ‖toE c‖ ^ 2 := by
    intro c
    rw [hnormE (toE c)]
    rfl
  have hdec2 : ∀ c : Fin n → ℝ, f c = p →
      normSq c = normSq bm + ‖toE c - bm‖ ^ 2 := by
    intro c hc
    have hmem : toE c - bm ∈ L := by
      rw [LinearMap.mem_ker, map_sub]
      have h0 : f (toE c) = p := hc
      rw [h0, hfbm, sub_self]
    have hz : ⟪toE c - bm, bm⟫ = 0 :=
      Submodule.inner_right_of_mem_orthogonal hmem hbm_perp
    have hz' : ⟪bm, toE c - bm⟫ = 0 := by
      rw [real_inner_comm]
      exact hz
    have h1 : toE c = bm + (toE c - bm) := by abel
    have h2 : ‖toE c‖ ^ 2 = ‖bm‖ ^ 2 + ‖toE c - bm‖ ^ 2 := by
      calc ‖toE c‖ ^ 2 = ‖bm + (toE c - bm)‖ ^ 2 := by rw [← h1]
        _ = ‖bm‖ ^ 2 + 2 * ⟪bm, toE c - bm⟫ + ‖toE c - bm‖ ^ 2 :=
            norm_add_sq_real bm (toE c - bm)
        _ = ‖bm‖ ^ 2 + ‖toE c - bm‖ ^ 2 := by rw [hz']; ring
    have h3 : normSq bm = ‖bm‖ ^ 2 := hnsq bm
    rw [hnsq c, h2, h3]
  refine ⟨bm, ⟨(hmin_iff bm).2 hfbm, ?_⟩, ?_⟩
  · intro c hc
    have hfc : f c = p := (hmin_iff c).1 hc
    have h2 : normSq c = normSq bm + ‖toE c - bm‖ ^ 2 := hdec2 c hfc
    nlinarith [sq_nonneg ‖toE c - bm‖]
  · intro c hc
    have hfc : f c = p := (hmin_iff c).1 hc.1
    have h1 : normSq c ≤ normSq bm := hc.2 bm ((hmin_iff bm).2 hfbm)
    have h2 : normSq c = normSq bm + ‖toE c - bm‖ ^ 2 := hdec2 c hfc
    have h3 : ‖toE c - bm‖ ^ 2 ≤ 0 := by linarith
    have h4 : ‖toE c - bm‖ = 0 := by
      nlinarith [norm_nonneg (toE c - bm)]
    have h5 : toE c - bm = 0 := norm_eq_zero.1 h4
    exact sub_eq_zero.1 h5

/-! ## Helper lemmas: cells and column assignment -/

theorem lookup_cons_true {c k : String} (h : c = k) (b : Celula) (r : Linha) :
    ((k, b) :: r).lookup c = some b := by
  have hb : (c == k) = true := by simp [h]
  rw [List.lookup_cons, hb]

theorem lookup_cons_false {c k : String} (h : c ≠ k) (b : Celula) (r : Linha) :
    ((k, b) :: r).lookup c = r.lookup c := by
  have hb : (c == k) = false := by simp [h]
  rw [List.lookup_cons, hb]

theorem lookup_map_set (r : Linha) (c : String) (v : Celula) :
    (r.map (fun p => if p.1 == c then (p.1, v) else p)).lookup c =
      if r.any (fun p => p.1 == c) then some v else none := by
  induction r with
  | nil => simp
  | cons p r ih =>
    obtain ⟨k, b⟩ := p
    rw [List.map_cons, List.any_cons]
    by_cases hk : k = c
    · have hb : (k == c) = true := by simp [hk]
      rw [if_pos hb, lookup_cons_true hk.symm, hb, Bool.true_or, if_pos rfl]
    · have hb : (k == c) = false := by simp [hk]
      rw [if_neg (by simp [hb]), lookup_cons_false (fun he => hk he.symm), hb,
        Bool.false_or]
      exact ih

theorem lookup_append_single (r : Linha) (c : String) (v : Celula)
    (h : r.any (fun p => p.1 == c) = false) :
    (r ++ [(c, v)]).lookup c = some v := by
  induction r with
  | nil => simp [List.lookup]
  | cons p r ih =>
    obtain ⟨k, b⟩ := p
    simp only [List.any_cons, Bool.or_eq_false_iff] at h
    have hck : (c == k) = false := by
      have := h.1
      simp only [beq_eq_false_iff_ne] at this ⊢
      exact Ne.symm this
    simp only [List.cons_append, List.lookup_cons, hck]
    exact ih h.2

theorem getCell_setCell_same (r : Linha) (c : String) (v : Celula) :
    getCell (setCell r c v) c = v := by
  unfold getCell setCell
  cases hany : r.any (fun p => p.1 == c) with
  | true =>
    rw [if_pos rfl, lookup_map_set, if_pos hany]
    rfl
  | false =>
    rw [if_neg Bool.false_ne_true, lookup_append_single r c v hany]
    rfl

theorem lookup_map_set_other (r : Linha) (c c' : String) (v : Celula) (h : c' ≠ c) :
    (r.map (fun p => if p.1 == c then (p.1, v) else p)).lookup c' = r.lookup c' := by
  induction r with
  | nil => simp
  | cons p r ih =>
    obtain ⟨k, b⟩ := p
    rw [List.map_cons]
    by_cases hk : k = c
    · have hb : (k == c) = true := by simp [hk]
      have hck : c' ≠ k := by rw [hk]; exact h
      rw [if_pos hb, show ((k, b).1 : String) = k from rfl]
      rw [lookup_cons_false hck, lookup_cons_false hck]
      exact ih
    · have hb : (k == c) = false := by simp [hk]
      rw [if_neg (by simp [hb])]
      by_cases hck : c' = k
      · rw [lookup_cons_true hck, lookup_cons_true hck]
      · rw [lookup_cons_false hck, lookup_cons_false hck]
        exact ih

theorem lookup_append_single_other (r : Linha) (c c' : String) (v : Celula)
    (h : c' ≠ c) : (r ++ [(c, v)]).lookup c' = r.lookup c' := by
  induction r with
  | nil =>
    have : (c' == c) = false := by simp [h]
    simp [List.lookup, this]
  | cons p r ih =>
    obtain ⟨k, b⟩ := p
    simp only [List.cons_append, List.lookup_cons]
    cases hck : (c' == k) with
    | true => rfl
    | false => exact ih

theorem getCell_setCell_other (r : Linha) (c c' : String) (v : Celula) (h : c' ≠ c) :
    getCell (setCell r c v) c' = getCell r c' := by
  unfold getCell setCell
  cases hany : r.any (fun p => p.1 == c) with
  | true => rw [if_pos rfl, lookup_map_set_other r c c' v h]
  | false => rw [if_neg Bool.false_ne_true, lookup_append_single_other r c c' v h]

theorem map_set_id (r : Linha) (c : String) (q : ℚ)
    (h : ∀ p ∈ r, p.1 = c → p.2 = Celula.num q) :
    r.map (fun p => if p.1 == c then (p.1, Celula.num q) else p) = r := by
  induction r with
  | nil => rfl
  | cons p r ih =>
    obtain ⟨k, b⟩ := p
    simp only [List.map_cons]
    rw [ih (fun p hp hpc => h p (List.mem_cons.2 (Or.inr hp)) hpc)]
    by_cases hk : k = c
    · have hb : (k == c) = true := by simp [hk]
      have hv : b = Celula.num q := h (k, b) (List.mem_cons_self _ _) hk
      simp [hb, hv]
    · have hb : (k == c) = false := by simp [hk]
      simp [hb]

theorem lookup_some_any (r : Linha) (c : String) (o : Celula)
    (hlk : r.lookup c = some o) : r.any (fun p => p.1 == c) = true := by
  induction r with
  | nil => simp [List.lookup] at hlk
  | cons p r ih =>
    obtain ⟨k, b⟩ := p
    simp only [List.any_cons, Bool.or_eq_true]
    by_cases hck : c = k
    · exact Or.inl (by simp [hck])
    · have hb : (c == k) = false := by simp [hck]
      refine Or.inr (ih ?_)
      simpa [List.lookup_cons, hb] using hlk

theorem nodup_keys_eq_num (r : Linha) (c : String) (q : ℚ)
    (hlk : r.lookup c = some (.num q)) (hnd : (r.map Prod.fst).Nodup) :
    ∀ p ∈ r, p.1 = c → p.2 = Celula.num q := by
  induction r with
  | nil => intro p hp; simp at hp
  | cons p0 r ih =>
    obtain ⟨k, b⟩ := p0
    intro p hp hpc
    rcases List.mem_cons.1 hp with h | h
    · subst h
      have hk : k = c := hpc
      rw [lookup_cons_true hk.symm] at hlk
      exact Option.some.inj hlk
    · rw [List.map_cons] at hnd
      have hnd2 := List.nodup_cons.1 hnd
      have hkk : k ≠ c := by
        intro hkc
        have hmem : c ∈ r.map Prod.fst := by
          rw [← hpc]
          exact List.mem_map.2 ⟨p, h, rfl⟩
        exact hnd2.1 (hkc ▸ hmem)
      rw [lookup_cons_false (fun he => hkk he.symm)] at hlk
      exact ih hlk hnd2.2 p h hpc

theorem setCell_id (r : Linha) (c : String) (q : ℚ)
    (hlk : r.lookup c = some (.num q)) (hnd : (r.map Prod.fst).Nodup) :
    setCell r c (.num q) = r := by
  unfold setCell
  rw [if_pos (lookup_some_any r c _ hlk)]
  exact map_set_id r c q (nodup_keys_eq_num r c q hlk hnd)

/-! ## Helper lemmas: structure of the numeric-column fixup -/

theorem coagir_eq (cols : List String) (rows : List Linha) (c : String) :
    coagir ⟨cols, rows⟩ c = ⟨coagirCols cols c, rows.map (coagirRow cols c)⟩ := by
  unfold coagir coagirCols coagirRow setCol
  by_cases hm : c ∈ cols
  · have hc : cols.contains c = true := by simpa using hm
    simp [hc, hm]
  · have hc : cols.contains c = false := by simpa using hm
    have happ : c ∈ cols ++ [c] := by simp
    have happ' : (cols ++ [c]).contains c = true := by simp
    simp only [hc, hm, if_false, Bool.false_eq_true, List.map_map, happ, happ',
      if_true]
    refine congrArg (Frame.mk (cols ++ [c])) ?_
    apply List.map_congr_left
    intro r _
    rfl

theorem getData_setCell (r : Linha) (c : String) (v : Celula) (hc : c ≠ "Data") :
    getData (setCell r c v) = getData r := by
  unfold getData
  rw [getCell_setCell_other r c "Data" v (fun he => hc he.symm)]

theorem getData_coagirRow (cols : List String) (c : String) (r : Linha)
    (hc : c ≠ "Data") : getData (coagirRow cols c r) = getData r := by
  unfold coagirRow
  by_cases hcc : cols.contains c = true
  · simp only [hcc, if_true]
    exact getData_setCell _ c _ hc
  · have hc' : cols.contains c = false := by simpa using hcc
    simp only [hc', Bool.false_eq_true, if_false]
    rw [getData_setCell _ c _ hc, getData_setCell _ c _ hc]

theorem foldl_coagir_filter :
    ∀ (cs : List String), (∀ c ∈ cs, c ≠ "Data") →
      ∀ (cols : List String) (rows : List Linha),
        (cs.foldl coagir ⟨cols, rows.filter (fun r => (getData r).isSome)⟩).rows =
          ((cs.foldl coagir ⟨cols, rows⟩).rows).filter
            (fun r => (getData r).isSome) := by
  intro cs
  induction cs with
  | nil =>
    intro _ cols rows
    rfl
  | cons c cs ih =>
    intro hcs cols rows
    rw [List.foldl_cons, List.foldl_cons, coagir_eq, coagir_eq]
    have hfm : (rows.filter (fun r => (getData r).isSome)).map (coagirRow cols c) =
        (rows.map (coagirRow cols c)).filter (fun r => (getData r).isSome) := by
      rw [List.filter_map]
      congr 1
      apply List.filter_congr
      intro r _
      show ((getData r).isSome : Bool) = (getData (coagirRow cols c r)).isSome
      rw [getData_coagirRow cols c r (hcs c (List.mem_cons_self _ _))]
    rw [hfm]
    exact ih (fun c' hc' => hcs c' (List.mem_cons.2 (Or.inr hc'))) _ _

theorem filterMap_filter_isSome {α β : Type} (f : α → Option β) (l : List α) :
    (l.filter (fun x => (f x).isSome)).filterMap f = l.filterMap f := by
  induction l with
  | nil => rfl
  | cons a l ih =>
    cases hf : f a with
    | none =>
      have h1 : ((f a).isSome : Bool) = false := by rw [hf]; rfl
      rw [List.filter_cons, h1]
      simp only [Bool.false_eq_true, if_false]
      rw [List.filterMap_cons, hf, ih]
    | some b =>
      have h1 : ((f a).isSome : Bool) = true := by rw [hf]; rfl
      rw [List.filter_cons, h1]
      simp only [if_true]
      rw [List.filterMap_cons, List.filterMap_cons, hf, ih]

theorem chavesMes_filter (R : List Linha) :
    chavesMes (R.filter (fun r => (getData r).isSome)) = chavesMes R := by
  unfold chavesMes
  rw [filterMap_filter_isSome]

theorem agruparMes_filter (R : List Linha) (ym : Nat × Nat) :
    agruparMes (R.filter (fun r => (getData r).isSome)) ym = agruparMes R ym := by
  unfold agruparMes
  have h : (R.filter (fun r => (getData r).isSome)).filter
      (fun r => getData r == some ym) = R.filter (fun r => getData r == some ym) := by
    rw [List.filter_filter]
    apply List.filter_congr
    intro r _
    cases hg : getData r with
    | none => simp [hg]
    | some ym' => simp [hg]
  rw [h]

/-! ## Helper lemmas: column views of the monthly series -/

theorem decorar_map_ym (base : List BaseRow) :
    (decorar base).map (fun r => r.ym) = base.map (fun b => b.ym) := by
  apply List.ext_getElem
  · simp [decorar_length]
  · intro i h1 h2
    simp only [List.getElem_map]
    rw [decorar_ym base i (by simpa [decorar_length] using h2)]

theorem decorar_map_fat (base : List BaseRow) (f : Fator) :
    (decorar base).map (fun r => r.fat f) = base.map (fun b => b.fat f) := by
  apply List.ext_getElem
  · simp [decorar_length]
  · intro i h1 h2
    simp only [List.getElem_map]
    rw [decorar_fat base i (by simpa [decorar_length] using h2)]

theorem decorar_map_vendas (base : List BaseRow) :
    (decorar base).map (fun r => r.vendas) = base.map (fun b => b.vendas) := by
  apply List.ext_getElem
  · simp [decorar_length]
  · intro i h1 h2
    simp only [List.getElem_map]
    rw [decorar_vendas base i (by simpa [decorar_length] using h2)]

theorem agruparMes_ym (R : List Linha) (ym : Nat × Nat) :
    (agruparMes R ym).ym = ym := rfl

theorem agruparMes_vendas (R : List Linha) (ym : Nat × Nat) :
    (agruparMes R ym).vendas = ((R.filter (fun r => getData r == some ym)).map
      (fun r => toNumeric (getCell r "Vendas"))).sum := rfl

theorem mesesDe_eq (df : Frame) :
    mesesDe df =
      decorar ((chavesMes (coagido df).rows).map
        (agruparMes (coagido df).rows)) := rfl

theorem mesesDe_map_ym (df : Frame) :
    (mesesDe df).map (fun r => r.ym) = chavesMes (coagido df).rows := by
  rw [mesesDe_eq, decorar_map_ym, List.map_map]
  have h : ((fun (r : BaseRow) => r.ym) ∘
      agruparMes ((coagido df).rows)) = id := funext (fun x => rfl)
  rw [h, List.map_id]

theorem mesesDe_filter (df : Frame) :
    mesesDe ⟨df.cols, df.rows.filter (fun r => (getData r).isSome)⟩ =
      mesesDe df := by
  rw [mesesDe_eq, mesesDe_eq]
  have hR : (coagido ⟨df.cols, df.rows.filter (fun r => (getData r).isSome)⟩).rows
      = ((coagido df).rows).filter (fun r => (getData r).isSome) := by
    have h := foldl_coagir_filter seisCols (by decide) df.cols df.rows
    exact h
  rw [hR, chavesMes_filter]
  refine congrArg decorar ?_
  apply List.map_congr_left
  intro ym _
  exact agruparMes_filter _ ym

/-! ## The claims -/

/-- C4: for every monthly series, the least-squares problem `sales ~
intercept + five factors` set up by `diagnostico_mes` (design matrix with a
column of ones and the five raw factor columns) has exactly one
minimum-norm least-squares solution: a vector of six coefficients
minimizing the sum of squared residuals and, among all such minimizers, of
least Euclidean norm.  This holds for series of any length, in particular
when the system is under-determined (fewer rows than six parameters), so
the documented contract of `np.linalg.lstsq` (`rcond=None`) — which
`diagnostico_mes` relies on — is well-defined and total for every input
the code can build. -/
theorem claim_C4 (meses : List MonthlyRow) :
    ∃! b : Fin 6 → ℝ, IsMinNormLSQ (designMatrix meses) (vendasVec meses) b :=
  existsUnique_IsMinNormLSQ (designMatrix meses) (vendasVec meses)

/-- C3: in every monthly series produced by the aggregator the month keys
are strictly increasing (strict positional adjacency in chronological
order), the first row's month-over-month change is undefined (`none`), and
every later row's change equals `(cur − prev)/prev × 100` computed against
the immediately preceding row (stated for `prev ≠ 0`, the only case in
which the claimed quotient denotes). -/
theorem claim_C3 (df : Frame) :
    ((mesesDe df).map (fun r => r.ym)).Pairwise ymLT ∧
    (∀ h0 : 0 < (mesesDe df).length, ((mesesDe df).get ⟨0, h0⟩).mom = none) ∧
    (∀ i, ∀ hi : i + 1 < (mesesDe df).length,
      ((mesesDe df).get ⟨i, Nat.lt_of_succ_lt hi⟩).vendas ≠ 0 →
      ((mesesDe df).get ⟨i + 1, hi⟩).mom =
        some ((((mesesDe df).get ⟨i + 1, hi⟩).vendas -
               ((mesesDe df).get ⟨i, Nat.lt_of_succ_lt hi⟩).vendas) /
              ((mesesDe df).get ⟨i, Nat.lt_of_succ_lt hi⟩).vendas * 100)) := by
  refine ⟨?_, ?_, ?_⟩
  · rw [mesesDe_map_ym]
    exact chavesMes_pairwise_lt _
  · intro h0
    exact decorar_mom_zero_get
      ((chavesMes (coagido df).rows).map (agruparMes (coagido df).rows)) h0
  · intro i hi hv
    exact decorar_mom_succ_get
      ((chavesMes (coagido df).rows).map (agruparMes (coagido df).rows)) i hi hv

theorem claim_C3_witness :
    ((mesesDe exDf4).map (fun r => r.mom) = [none, some 50, some (-40), some 0]) ∧
    (((mesesDe exDf4).get ⟨0, by with_unfolding_all decide⟩).vendas ≠ 0) ∧
    ((mesesDe exDf4).get ⟨0 + 1, by with_unfolding_all decide⟩).mom =
      some ((((mesesDe exDf4).get ⟨0 + 1, by with_unfolding_all decide⟩).vendas -
             ((mesesDe exDf4).get ⟨0, by with_unfolding_all decide⟩).vendas) /
            ((mesesDe exDf4).get ⟨0, by with_unfolding_all decide⟩).vendas * 100) :=
  ⟨by with_unfolding_all decide, by with_unfolding_all decide,
   (claim_C3 exDf4).2.2 0 (by with_unfolding_all decide)
     (by with_unfolding_all decide)⟩

/-- C2: when the target (year, month) is absent from the monthly series, or
is present as its first (chronologically earliest) row, `diagnostico_mes`
returns no contribution table (`none`) — not an error — while still
returning the monthly series and the correlation ranking computed from the
full series. -/
theorem claim_C2 (solver : List MonthlyRow → ℚ × (Fator → ℚ)) (df : Frame)
    (ano mes : Nat)
    (h : (∀ r ∈ mesesDe df, ¬(r.ym.1 = ano ∧ r.ym.2 = mes)) ∨
         (∃ h0 : 0 < (mesesDe df).length,
            ((mesesDe df).get ⟨0, h0⟩).ym = (ano, mes))) :
    diagnosticoMes solver df ano mes =
      (mesesDe df, corrVendas (mesesDe df), none) := by
  have hdec : decompor (mesesDe df) (solver (mesesDe df)).2 ano mes = none := by
    unfold decompor
    rcases h with h | ⟨h0, hym⟩
    · have hnone : (mesesDe df).findIdx?
          (fun r => r.ym.1 == ano && r.ym.2 == mes) = none := by
        rw [List.findIdx?_eq_none_iff]
        intro r hr
        have hr' := h r hr
        simp only [Bool.and_eq_false_iff, beq_eq_false_iff_ne]
        by_cases h1 : r.ym.1 = ano
        · exact Or.inr (fun h2 => hr' ⟨h1, h2⟩)
        · exact Or.inl h1
      rw [hnone]
    · cases hm : mesesDe df with
      | nil => rw [hm] at h0; simp at h0
      | cons r0 rest =>
        have hr0 : r0.ym = (ano, mes) := by
          have h1 := hym
          have h2 : (mesesDe df).get ⟨0, h0⟩ = r0 := by
            rw [List.get_eq_getElem, List.getElem_of_eq hm h0]
            rfl
          rw [h2] at h1
          exact h1
        have hp : (r0.ym.1 == ano && r0.ym.2 == mes) = true := by
          rw [hr0]
          simp
        rw [List.findIdx?_cons, if_pos hp]
        simp
  show (mesesDe df, corrVendas (mesesDe df),
    decompor (mesesDe df) (solver (mesesDe df)).2 ano mes) = _
  rw [hdec]

theorem claim_C2_witness :
    (∀ r ∈ mesesDe exDf4, ¬(r.ym.1 = 2021 ∧ r.ym.2 = 5)) ∧
    diagnosticoMes solver0 exDf4 2021 5 =
      (mesesDe exDf4, corrVendas (mesesDe exDf4), none) :=
  ⟨by with_unfolding_all decide,
   claim_C2 solver0 exDf4 2021 5 (Or.inl (by with_unfolding_all decide))⟩

/-- C1: for every monthly series, coefficient vector and target (year,
month) located in the series at a non-first position (the predicate
`findIdx? = some (j+1)` is exactly "present and not the first row"), the
decomposition produces a table whose per-factor rows carry `Δ = target −
predecessor`, the coefficient, and `contribution = coefficient × Δ` for
each of the five factors; the rows are ordered by descending
`|contribution|`; and the synthetic total row holds the sum of the
per-factor contributions next to the real observed sales delta.  The
coefficients are the ones handed over by the least-squares solver, taken
here as an arbitrary vector `beta`. -/
theorem claim_C1 (meses : List MonthlyRow) (beta : Fator → ℚ) (ano mes : Nat)
    (j : Nat)
    (hj : meses.findIdx? (fun r => r.ym.1 == ano && r.ym.2 == mes) = some (j + 1)) :
    ∃ alvo prev : MonthlyRow, meses[j+1]? = some alvo ∧ meses[j]? = some prev ∧
      ∃ t : ContribTable, decompor meses beta ano mes = some t ∧
        t.linhas.Perm (fatores.map (fun f =>
          (f, alvo.fat f - prev.fat f, beta f, beta f * (alvo.fat f - prev.fat f)))) ∧
        (∀ l ∈ t.linhas, l.2.1 = alvo.fat l.1 - prev.fat l.1 ∧
          l.2.2.1 = beta l.1 ∧
          l.2.2.2 = beta l.1 * (alvo.fat l.1 - prev.fat l.1)) ∧
        t.linhas.Pairwise (fun a b => |b.2.2.2| ≤ |a.2.2.2|) ∧
        t.totalContrib =
          (fatores.map (fun f => beta f * (alvo.fat f - prev.fat f))).sum ∧
        t.totalDelta = alvo.vendas - prev.vendas := by
  have hlt : j + 1 < meses.length := by
    obtain ⟨h, -, -⟩ := (List.findIdx?_eq_some_iff_getElem).1 hj
    exact h
  have hlt' : j < meses.length := Nat.lt_of_succ_lt hlt
  refine ⟨getElem meses (j+1) hlt, getElem meses j hlt', List.getElem?_eq_getElem hlt,
    List.getElem?_eq_getElem hlt',
    tabelaContrib (getElem meses (j+1) hlt) (getElem meses j hlt') beta, ?_, ?_, ?_, ?_, ?_, ?_⟩
  · unfold decompor
    rw [hj]
    dsimp only
    rw [if_neg (by omega : ¬ j + 1 = 0)]
    simp only [Nat.add_sub_cancel]
    rw [List.getElem?_eq_getElem hlt, List.getElem?_eq_getElem hlt']
  · exact List.perm_insertionSort contribGE _
  · intro l hl
    have hl' := (List.mem_insertionSort contribGE).1 hl
    rcases List.mem_map.1 hl' with ⟨f, -, rfl⟩
    exact ⟨rfl, rfl, rfl⟩
  · exact List.sorted_insertionSort contribGE _
  · show (((fatores.map (fun f =>
      (f, (getElem meses (j+1) hlt).fat f - (getElem meses j hlt').fat f, beta f,
       beta f * ((getElem meses (j+1) hlt).fat f - (getElem meses j hlt').fat f)))).map
        (fun p => p.2.2.2))).sum = _
    rw [List.map_map]
    rfl
  · rfl

theorem claim_C1_witness :
    ((mesesDe exDf4).findIdx?
      (fun r => r.ym.1 == 2020 && r.ym.2 == 2) = some (0 + 1)) ∧
    (∃ alvo prev : MonthlyRow,
      (mesesDe exDf4)[0+1]? = some alvo ∧ (mesesDe exDf4)[0]? = some prev ∧
      ∃ t : ContribTable,
        decompor (mesesDe exDf4) (fun _ => 2) 2020 2 = some t ∧
        t.linhas.Perm (fatores.map (fun f =>
          (f, alvo.fat f - prev.fat f, (fun (_ : Fator) => (2:ℚ)) f,
           (fun (_ : Fator) => (2:ℚ)) f * (alvo.fat f - prev.fat f)))) ∧
        (∀ l ∈ t.linhas, l.2.1 = alvo.fat l.1 - prev.fat l.1 ∧
          l.2.2.1 = (fun (_ : Fator) => (2:ℚ)) l.1 ∧
          l.2.2.2 = (fun (_ : Fator) => (2:ℚ)) l.1 * (alvo.fat l.1 - prev.fat l.1)) ∧
        t.linhas.Pairwise (fun a b => |b.2.2.2| ≤ |a.2.2.2|) ∧
        t.totalContrib = (fatores.map (fun f =>
          (fun (_ : Fator) => (2:ℚ)) f * (alvo.fat f - prev.fat f))).sum ∧
        t.totalDelta = alvo.vendas - prev.vendas) :=
  ⟨by with_unfolding_all decide,
   claim_C1 (mesesDe exDf4) (fun _ => 2) 2020 2 0 (by with_unfolding_all decide)⟩

/-- C8: loading fails with the no-recognized-source error exactly when no
sheet name is recognized; with at least one recognized sheet it proceeds
past that check (the only later failure is the month-column error), the
base frame is the concatenation of the recognized sheets in recognized-set
order, and every row of a read sheet is tagged in its `Loja` column with
the last `_`-separated token of the sheet name. -/
theorem claim_C8 (planilhas : List (String × List Linha)) :
    (presentesDe planilhas = [] →
       carregar_dados planilhas = .error .semFonteReconhecida) ∧
    (presentesDe planilhas ≠ [] →
       carregar_dados planilhas ≠ .error .semFonteReconhecida ∧
       (baseFrame planilhas).rows =
         ((presentesDe planilhas).map
           (fun nome => (lerAba planilhas nome).rows)).flatten ∧
       (∀ nome ∈ presentesDe planilhas, ∀ r ∈ (lerAba planilhas nome).rows,
          getCell r "Loja" = .texto (ultimoToken nome))) := by
  constructor
  · intro h
    unfold carregar_dados
    rw [if_pos (by rw [h]; rfl)]
  · intro h
    refine ⟨?_, ?_, ?_⟩
    · unfold carregar_dados
      rw [if_neg (by simpa [List.isEmpty_iff] using h)]
      dsimp only
      split
      · simp
      · split
        · simp
        · simp
    · unfold baseFrame concatFrames
      simp only [List.map_map]
      rfl
    · intro nome hn r hr
      unfold lerAba setCol at hr
      simp only [List.mem_map] at hr
      obtain ⟨r0, -, rfl⟩ := hr
      exact getCell_setCell_same r0 "Loja" _

theorem claim_C8_witness :
    (presentesDe exPlZ = [] ∧
      carregar_dados exPlZ = .error .semFonteReconhecida) ∧
    (presentesDe exPl ≠ [] ∧
      carregar_dados exPl ≠ .error .semFonteReconhecida) :=
  ⟨⟨by with_unfolding_all decide, (claim_C8 exPlZ).1 (by with_unfolding_all decide)⟩,
   ⟨by with_unfolding_all decide,
    ((claim_C8 exPl).2 (by with_unfolding_all decide)).1⟩⟩

/-- C9, counterexample: the pipeline does mutate the canonical record set.
`_prep_mensal` assigns columns on the frame it is given (`df_all[col] = 0`
for a missing factor column, then a numeric coercion of all six columns);
`coagido` is exactly that in-place update.  On the loaded `exPl` frame —
whose sheets lack the three promotion/absence/marketing factor columns —
the record set after `diagnostico_mes` differs from the one passed in. -/
theorem claim_C9_counterexample :
    ∃ df : Frame, carregar_dados exPl = .ok df ∧ coagido df ≠ df :=
  ⟨_, by with_unfolding_all rfl, by with_unfolding_all decide⟩

/-- C9, amended: the record set is left unchanged exactly when
`_prep_mensal`'s column fixup has nothing to do — all six numeric columns
already present, every one of their cells already a number (and the rows'
keys unambiguous).  Then `_prep_mensal` hands back the frame it was given,
unchanged, next to the monthly series; the other stages (correlations,
decomposition, summary) never write to it. -/
theorem claim_C9_amended (df : Frame)
    (hcols : ∀ c ∈ seisCols, df.cols.contains c = true)
    (hnum : ∀ r ∈ df.rows, ∀ c ∈ seisCols, isNumCell (r.lookup c) = true)
    (hnd : ∀ r ∈ df.rows, (r.map Prod.fst).Nodup) :
    coagido df = df ∧ prepMensal df = (df, mesesDe df) := by
  have hstep : ∀ c ∈ seisCols, coagir df c = df := by
    intro c hc
    unfold coagir setCol
    rw [if_pos (hcols c hc)]
    dsimp only
    rw [if_pos (hcols c hc)]
    have hrows : df.rows.map
        (fun r => setCell r c (.num (toNumeric (getCell r c)))) = df.rows := by
      have hpt : ∀ r ∈ df.rows,
          setCell r c (.num (toNumeric (getCell r c))) = r := by
        intro r hr
        have hq := hnum r hr c hc
        cases hl : r.lookup c with
        | none => rw [hl] at hq; simp [isNumCell] at hq
        | some cel =>
          cases cel with
          | num q =>
            have hg : getCell r c = .num q := by unfold getCell; rw [hl]; rfl
            rw [hg]
            exact setCell_id r c q hl (hnd r hr)
          | vazio => rw [hl] at hq; simp [isNumCell] at hq
          | texto s => rw [hl] at hq; simp [isNumCell] at hq
          | data ym => rw [hl] at hq; simp [isNumCell] at hq
      calc df.rows.map (fun r => setCell r c (.num (toNumeric (getCell r c))))
          = df.rows.map id := List.map_congr_left hpt
        _ = df.rows := List.map_id _
    rw [hrows]
  have hfold : ∀ cs : List String, (∀ c ∈ cs, coagir df c = df) →
      cs.foldl coagir df = df := by
    intro cs
    induction cs with
    | nil => intro _; rfl
    | cons c cs ih =>
      intro hcs
      rw [List.foldl_cons, hcs c (List.mem_cons_self _ _)]
      exact ih (fun c' hc' => hcs c' (List.mem_cons.2 (Or.inr hc')))
  have hco : coagido df = df := hfold seisCols hstep
  refine ⟨hco, ?_⟩
  show (coagido df, mesesDe df) = (df, mesesDe df)
  rw [hco]

theorem claim_C9_amended_witness :
    (∀ c ∈ seisCols, exDfFull.cols.contains c = true) ∧
    coagido exDfFull = exDfFull ∧ prepMensal exDfFull = (exDfFull, mesesDe exDfFull) :=
  ⟨by with_unfolding_all decide,
   claim_C9_amended exDfFull (by with_unfolding_all decide)
     (by with_unfolding_all decide) (by with_unfolding_all decide)⟩

/-- C10: inputs that agree on the three recognized sheets produce the same
loaded record set, and hence the whole analysis (monthly series, peak,
correlation ranking, contribution tables) is identical: rows in
unrecognized sheets never influence any result. -/
theorem claim_C10 (solver : List MonthlyRow → ℚ × (Fator → ℚ))
    (p1 p2 : List (String × List Linha))
    (h : ∀ nome ∈ esperadas, p1.lookup nome = p2.lookup nome) :
    carregar_dados p1 = carregar_dados p2 ∧
    ∀ ano mes, pipeline solver p1 ano mes = pipeline solver p2 ano mes := by
  have hlk : ∀ (p : List (String × List Linha)) (nome : String),
      (p.map Prod.fst).contains nome = (p.lookup nome).isSome := by
    intro p nome
    induction p with
    | nil => rfl
    | cons kv t ih =>
      obtain ⟨k, v⟩ := kv
      by_cases hk : nome = k
      · have hb : (nome == k) = true := by simp [hk]
        simp [List.lookup_cons, hb]
      · have hb : (nome == k) = false := by simp [hk]
        simp only [List.map_cons, List.contains_cons, List.lookup_cons, hb,
          Bool.false_or]
        exact ih
  have hpres : presentesDe p1 = presentesDe p2 := by
    unfold presentesDe
    apply List.filter_congr
    intro nome hn
    rw [hlk p1 nome, hlk p2 nome, h nome hn]
  have hmem : ∀ nome ∈ presentesDe p1, nome ∈ esperadas := by
    intro nome hn
    exact List.mem_of_mem_filter hn
  have haba : ∀ nome ∈ presentesDe p1, lerAba p1 nome = lerAba p2 nome := by
    intro nome hn
    unfold lerAba
    rw [h nome (hmem nome hn)]
  have hbase : baseFrame p1 = baseFrame p2 := by
    unfold baseFrame
    rw [← hpres]
    exact congrArg concatFrames (List.map_congr_left haba)
  have hcar : carregar_dados p1 = carregar_dados p2 := by
    unfold carregar_dados
    rw [hpres, hbase]
  refine ⟨hcar, fun ano mes => ?_⟩
  unfold pipeline
  rw [hcar]

theorem claim_C10_witness :
    (∀ nome ∈ esperadas, exPl.lookup nome = exPlB.lookup nome) ∧
    carregar_dados exPl = carregar_dados exPlB ∧
    pipeline solver0 exPl 2020 2 = pipeline solver0 exPlB 2020 2 :=
  ⟨by with_unfolding_all decide,
   (claim_C10 solver0 exPl exPlB (by with_unfolding_all decide)).1,
   (claim_C10 solver0 exPl exPlB (by with_unfolding_all decide)).2 2020 2⟩

theorem decorar_ym_get (base : List BaseRow) (i : Nat)
    (hi : i < (decorar base).length) :
    ((decorar base).get ⟨i, hi⟩).ym =
      (base.get ⟨i, by rw [← decorar_length]; exact hi⟩).ym := by
  simp only [List.get_eq_getElem]
  exact decorar_ym base i (by rw [← decorar_length]; exact hi)

theorem lookup_mem {β : Type} (l : List (String × β)) (a : String) (b : β)
    (h : l.lookup a = some b) : (a, b) ∈ l := by
  induction l with
  | nil => simp [List.lookup] at h
  | cons kv t ih =>
    obtain ⟨k, v⟩ := kv
    rw [List.lookup_cons] at h
    cases hk : (a == k) with
    | true =>
      rw [hk] at h
      have hae : a = k := by simpa using hk
      have hbv : v = b := Option.some.inj h
      subst hae
      subst hbv
      exact List.mem_cons_self _ _
    | false =>
      rw [hk] at h
      exact List.mem_cons.2 (Or.inr (ih h))

theorem renome_ne_mesAcento (c : String) : renome c ≠ "Mês" := by
  unfold renome
  cases hl : colmap.lookup c with
  | none =>
    intro he
    simp only [Option.getD] at he
    rw [he] at hl
    exact (by with_unfolding_all decide : colmap.lookup "Mês" ≠ none) hl
  | some v =>
    simp only [Option.getD]
    have hm := lookup_mem colmap c v hl
    revert hm
    have : ∀ p ∈ colmap, p.2 ≠ "Mês" := by with_unfolding_all decide
    intro hm
    exact this (c, v) hm

theorem coagir_cols (f : Frame) (c : String) :
    (coagir f c).cols = coagirCols f.cols c := by
  obtain ⟨cols, rows⟩ := f
  rw [coagir_eq]

theorem coagirCols_sub (cols : List String) (c c' : String)
    (h : c' ∈ coagirCols cols c) : c' ∈ cols ∨ c' = c := by
  unfold coagirCols at h
  by_cases hc : cols.contains c = true
  · rw [if_pos hc] at h
    exact Or.inl h
  · rw [if_neg hc] at h
    rcases List.mem_append.1 h with h1 | h1
    · exact Or.inl h1
    · exact Or.inr (by simpa using h1)

theorem foldl_coagir_cols_sub :
    ∀ (cs : List String) (f : Frame) (c' : String),
      c' ∈ (cs.foldl coagir f).cols → c' ∈ f.cols ∨ c' ∈ cs := by
  intro cs
  induction cs with
  | nil =>
    intro f c' h
    exact Or.inl h
  | cons c cs ih =>
    intro f c' h
    rw [List.foldl_cons] at h
    rcases ih (coagir f c) c' h with h1 | h1
    · rw [coagir_cols] at h1
      rcases coagirCols_sub _ _ _ h1 with h2 | h2
      · exact Or.inl h2
      · exact Or.inr (h2 ▸ List.mem_cons_self _ _)
    · exact Or.inr (List.mem_cons.2 (Or.inr h1))

/-- C7: a record whose month label cannot be parsed (direct attempt,
substitution retry, format list — the chain is `parse_mes`) gets a null
`Data` value; such records are excluded from every monthly aggregate — the
monthly series built after dropping them is unchanged, every month row's
sales sum ranges exactly over records whose resolved month matches, and a
month appears in the series exactly when some record resolves to it.
A record with a non-numeric sales cell is still a member of its month's
group (the group membership test reads only the `Data` cell), so numeric
coercion keeps the record while month-parse failure drops it. -/
theorem claim_C7 (planilhas : List (String × List Linha)) (df : Frame)
    (hdf : carregar_dados planilhas = .ok df) :
    (∀ r ∈ df.rows, parse_mes (getCell r "Mes") = none →
       getCell r "Data" = .vazio) ∧
    (mesesDe ⟨df.cols, df.rows.filter (fun r => (getData r).isSome)⟩ =
       mesesDe df) ∧
    (∀ m ∈ mesesDe df,
       m.vendas = (((coagido df).rows.filter
           (fun r => getData r == some m.ym)).map
         (fun r => toNumeric (getCell r "Vendas"))).sum) ∧
    (∀ ym : Nat × Nat, (∃ m ∈ mesesDe df, m.ym = ym) ↔
       (∃ r ∈ (coagido df).rows, getData r = some ym)) := by
  refine ⟨?_, mesesDe_filter df, ?_, ?_⟩
  · unfold carregar_dados at hdf
    by_cases hempty : (presentesDe planilhas).isEmpty = true
    · rw [if_pos hempty] at hdf
      exact absurd hdf (by simp)
    · rw [if_neg hempty] at hdf
      dsimp only at hdf
      by_cases hmes : (List.foldl coagir (renomearFrame (baseFrame planilhas))
          ["Vendas", "Preco_Medio", "Estoque_Perc"]).cols.contains "Mes" = true
      · rw [if_pos hmes] at hdf
        have hdf' := Except.ok.inj hdf
        subst hdf'
        intro r hr hparse
        have hr' : r ∈ (List.foldl coagir (renomearFrame (baseFrame planilhas))
            ["Vendas", "Preco_Medio", "Estoque_Perc"]).rows.map
            (fun r => setCell r "Data"
              (celulaDeData (parse_mes (getCell r "Mes")))) := by
          simpa [setCol] using hr
        obtain ⟨r0, -, rfl⟩ := List.mem_map.1 hr'
        rw [getCell_setCell_other _ _ _ _ (by decide : "Mes" ≠ "Data")] at hparse
        rw [getCell_setCell_same]
        rw [hparse]
        rfl
      · rw [if_neg hmes] at hdf
        by_cases hmes2 : (List.foldl coagir (renomearFrame (baseFrame planilhas))
            ["Vendas", "Preco_Medio", "Estoque_Perc"]).cols.contains "Mês" = true
        · exfalso
          have hmem : "Mês" ∈ (List.foldl coagir
              (renomearFrame (baseFrame planilhas))
              ["Vendas", "Preco_Medio", "Estoque_Perc"]).cols := by
            simpa using hmes2
          rcases foldl_coagir_cols_sub _ _ _ hmem with h1 | h1
          · have h2 : "Mês" ∈ (baseFrame planilhas).cols.map renome := h1
            obtain ⟨c, -, hc⟩ := List.mem_map.1 h2
            exact renome_ne_mesAcento c hc
          · revert h1
            with_unfolding_all decide
        · rw [if_neg hmes2] at hdf
          exact absurd hdf (by simp)
  · intro m hm
    rw [mesesDe_eq] at hm
    obtain ⟨⟨i, hi⟩, hg⟩ := List.mem_iff_get.1 hm
    have hib : i < ((chavesMes (coagido df).rows).map
        (agruparMes (coagido df).rows)).length := by
      rw [← decorar_length]
      exact hi
    have hic : i < (chavesMes (coagido df).rows).length := by
      simpa using hib
    have h1 : m.vendas = (((chavesMes (coagido df).rows).map
        (agruparMes (coagido df).rows)).get ⟨i, hib⟩).vendas := by
      rw [← hg]
      exact decorar_vendas_get _ i hi
    have h2 : m.ym = (((chavesMes (coagido df).rows).map
        (agruparMes (coagido df).rows)).get ⟨i, hib⟩).ym := by
      rw [← hg]
      exact decorar_ym_get _ i hi
    have h3 : ((chavesMes (coagido df).rows).map
        (agruparMes (coagido df).rows)).get ⟨i, hib⟩ =
        agruparMes (coagido df).rows ((chavesMes (coagido df).rows).get ⟨i, hic⟩) := by
      simp only [List.get_eq_getElem, List.getElem_map]
    have h4 : m.ym = (chavesMes (coagido df).rows).get ⟨i, hic⟩ := by
      rw [h2, h3]
      exact agruparMes_ym _ _
    calc m.vendas
        = (((chavesMes (coagido df).rows).map
            (agruparMes (coagido df).rows)).get ⟨i, hib⟩).vendas := h1
      _ = (agruparMes (coagido df).rows
            ((chavesMes (coagido df).rows).get ⟨i, hic⟩)).vendas := by rw [h3]
      _ = (((coagido df).rows.filter (fun r =>
              getData r == some ((chavesMes (coagido df).rows).get ⟨i, hic⟩))).map
            (fun r => toNumeric (getCell r "Vendas"))).sum :=
          agruparMes_vendas _ _
      _ = (((coagido df).rows.filter (fun r => getData r == some m.ym)).map
            (fun r => toNumeric (getCell r "Vendas"))).sum := by rw [h4]
  · intro ym
    constructor
    · rintro ⟨m, hm, rfl⟩
      have hmem : m.ym ∈ (mesesDe df).map (fun r => r.ym) :=
        List.mem_map_of_mem _ hm
      rw [mesesDe_map_ym] at hmem
      exact (chavesMes_mem _ _).1 hmem
    · rintro ⟨r, hr, hg⟩
      have hmem : ym ∈ chavesMes (coagido df).rows :=
        (chavesMes_mem _ _).2 ⟨r, hr, hg⟩
      rw [← mesesDe_map_ym] at hmem
      obtain ⟨m, hm, he⟩ := List.mem_map.1 hmem
      exact ⟨m, hm, he⟩

theorem claim_C7_witness :
    ∃ df : Frame, carregar_dados exPl2 = .ok df ∧
      ((∀ r ∈ df.rows, parse_mes (getCell r "Mes") = none →
          getCell r "Data" = .vazio) ∧
       mesesDe ⟨df.cols, df.rows.filter (fun r => (getData r).isSome)⟩ =
         mesesDe df) ∧
      ((mesesDe df).map (fun m => (m.ym, m.vendas)) =
        [((2020, 1), 10), ((2020, 2), 0)]) :=
  ⟨_, by with_unfolding_all rfl,
   ⟨(claim_C7 exPl2 _ (by with_unfolding_all rfl)).1,
    (claim_C7 exPl2 _ (by with_unfolding_all rfl)).2.1⟩,
   by with_unfolding_all decide⟩

/-! ## Helper lemmas: casting the exact rational moments into the reals -/

theorem interp_mk (q d : ℚ) (h : 0 < d) :
    (Qsqrt.interp ⟨q, d, h⟩) = (q : ℝ) / Real.sqrt (d : ℝ) := rfl

theorem cast_list_sum (l : List ℚ) :
    ((l.sum : ℚ) : ℝ) = (l.map (fun (q : ℚ) => (q : ℝ))).sum := by
  induction l with
  | nil => simp
  | cons a l ih => simp [ih]

theorem media_cast (l : List ℚ) :
    ((media l : ℚ) : ℝ) = mediaR (l.map (fun (q : ℚ) => (q : ℝ))) := by
  unfold media mediaR
  push_cast [cast_list_sum]
  rw [List.length_map]

theorem somaQuad_cast (l : List ℚ) :
    ((somaQuad l : ℚ) : ℝ) =
      ((l.map (fun (q : ℚ) => (q : ℝ))).map
        (fun x => (x - mediaR (l.map (fun (q : ℚ) => (q : ℝ)))) ^ 2)).sum := by
  unfold somaQuad
  rw [cast_list_sum, List.map_map, List.map_map]
  refine congrArg List.sum (List.map_congr_left ?_)
  intro x _
  simp only [Function.comp_apply, ← media_cast]
  push_cast
  ring

theorem varPopR_cast (l : List ℚ) :
    varPopR (l.map (fun (q : ℚ) => (q : ℝ))) =
      ((somaQuad l : ℚ) : ℝ) / (l.length : ℝ) := by
  unfold varPopR
  rw [List.length_map, ← somaQuad_cast]

theorem somaCruz_cast (x y : List ℚ) :
    ((somaCruz x y : ℚ) : ℝ) =
      (((x.map (fun (q : ℚ) => (q : ℝ))).zip (y.map (fun (q : ℚ) => (q : ℝ)))).map
        (fun p => (p.1 - mediaR (x.map (fun (q : ℚ) => (q : ℝ)))) *
                  (p.2 - mediaR (y.map (fun (q : ℚ) => (q : ℝ)))))).sum := by
  unfold somaCruz
  rw [cast_list_sum, List.zip_map, List.map_map, List.map_map]
  refine congrArg List.sum (List.map_congr_left ?_)
  rintro ⟨a, b⟩ _
  simp only [Function.comp_apply, Prod.map_apply, ← media_cast]
  push_cast
  ring

theorem covPopR_cast (x y : List ℚ) :
    covPopR (x.map (fun (q : ℚ) => (q : ℝ))) (y.map (fun (q : ℚ) => (q : ℝ))) =
      ((somaCruz x y : ℚ) : ℝ) / (x.length : ℝ) := by
  unfold covPopR
  rw [List.length_map, ← somaCruz_cast]

theorem pearson_algebra (S a b n : ℝ) (ha : 0 < a) (hb : 0 < b) (hn : 0 < n) :
    (S / n) / (Real.sqrt (a / n) * Real.sqrt (b / n)) =
      S / Real.sqrt (a * b) := by
  rw [Real.sqrt_div ha.le, Real.sqrt_div hb.le, Real.sqrt_mul ha.le]
  have hsn : Real.sqrt n ≠ 0 := (Real.sqrt_pos.2 hn).ne'
  have hsa : Real.sqrt a ≠ 0 := (Real.sqrt_pos.2 ha).ne'
  have hsb : Real.sqrt b ≠ 0 := (Real.sqrt_pos.2 hb).ne'
  have hnn : Real.sqrt n * Real.sqrt n = n := Real.mul_self_sqrt hn.le
  field_simp

theorem mesesDe_map_fat (df : Frame) (f : Fator) :
    (mesesDe df).map (fun r => r.fat f) =
      ((chavesMes (coagido df).rows).map (agruparMes (coagido df).rows)).map
        (fun b => b.fat f) := by
  rw [mesesDe_eq]
  exact decorar_map_fat _ f

theorem mesesDe_z_get (df : Frame) (i : Nat) (hi : i < (mesesDe df).length)
    (f : Fator) :
    ((mesesDe df).get ⟨i, hi⟩).z f =
      (zColuna ((mesesDe df).map (fun r => r.fat f))).getD i ⟨0, 1, one_pos⟩ := by
  have hlen : i < (decorar ((chavesMes (coagido df).rows).map
      (agruparMes (coagido df).rows))).length := by
    rw [← mesesDe_eq]; exact hi
  have hg : (mesesDe df).get ⟨i, hi⟩ =
      (decorar ((chavesMes (coagido df).rows).map
        (agruparMes (coagido df).rows))).get ⟨i, hlen⟩ := by
    simp only [List.get_eq_getElem]
    exact List.getElem_of_eq (mesesDe_eq df) hi
  rw [hg, mesesDe_map_fat]
  exact decorar_z_get ((chavesMes (coagido df).rows).map
    (agruparMes (coagido df).rows)) i hlen f

/-- C6: standardization of every factor column of the monthly series uses
the population standard deviation: the variance divisor is the number of
monthly rows (not rows − 1).  A factor whose column is constant across all
months — equivalently, whose centered sum of squares (hence population
standard deviation) is zero — standardizes to exactly 0 in every row, with
no division by zero and no undefined value; in every other case row `i`
standardizes to `(xᵢ − mean) / √(Σ(x − mean)² / n)` with `n` the number of
monthly rows. -/
theorem claim_C6 (df : Frame) (f : Fator) (xs : List ℚ)
    (hxs : xs = (mesesDe df).map (fun r => r.fat f)) :
    ((∀ x ∈ xs, ∀ y ∈ xs, x = y) ↔ somaQuad xs = 0) ∧
    (somaQuad xs = 0 → ∀ m ∈ mesesDe df, Qsqrt.interp (m.z f) = 0) ∧
    (somaQuad xs ≠ 0 → ∀ i : Nat, ∀ hi : i < (mesesDe df).length,
      Qsqrt.interp (((mesesDe df).get ⟨i, hi⟩).z f) =
        (((((mesesDe df).get ⟨i, hi⟩).fat f - media xs : ℚ)) : ℝ) /
          Real.sqrt (((somaQuad xs / ((mesesDe df).length : ℚ)) : ℚ) : ℝ)) := by
  refine ⟨constante_iff_somaQuad_zero _, ?_, ?_⟩
  · intro h0 m hmem
    rw [hxs] at h0
    obtain ⟨⟨i, hi⟩, rfl⟩ := List.mem_iff_get.1 hmem
    have hixs : i < ((mesesDe df).map (fun r => r.fat f)).length := by
      rw [List.length_map]; exact hi
    have hnp : ¬ 0 < somaQuad ((mesesDe df).map (fun r => r.fat f)) /
        (((mesesDe df).map (fun r => r.fat f)).length : ℚ) := by
      rw [h0]; simp
    rw [mesesDe_z_get df i hi f, zColuna_getD_nonpos _ hnp i hixs]
    exact interp_zero
  · intro hne i hi
    rw [hxs] at hne
    rw [hxs]
    have hixs : i < ((mesesDe df).map (fun r => r.fat f)).length := by
      rw [List.length_map]; exact hi
    have hq : 0 < somaQuad ((mesesDe df).map (fun r => r.fat f)) :=
      lt_of_le_of_ne (somaQuad_nonneg _) (Ne.symm hne)
    have hlpos : 0 < ((mesesDe df).map (fun r => r.fat f)).length := by
      rw [List.length_map]; exact lt_of_le_of_lt (Nat.zero_le i) hi
    have hpos : 0 < somaQuad ((mesesDe df).map (fun r => r.fat f)) /
        (((mesesDe df).map (fun r => r.fat f)).length : ℚ) :=
      div_pos hq (by exact_mod_cast hlpos)
    rw [mesesDe_z_get df i hi f, zColuna_getD_pos _ hpos i hixs, interp_mk]
    simp only [List.getElem_map, List.length_map, List.get_eq_getElem]

/-- Evaluation witness for C6: in the loaded 4-month fixture the factor
column `Concorrencia_Promocoes` is created as the constant 0, its centered
sum of squares is 0, and every one of its standardized values is exactly
0. -/
theorem claim_C6_witness :
    ((∀ x ∈ (mesesDe exDf4).map (fun r => r.fat Fator.conc),
        ∀ y ∈ (mesesDe exDf4).map (fun r => r.fat Fator.conc), x = y) ↔
      somaQuad ((mesesDe exDf4).map (fun r => r.fat Fator.conc)) = 0) ∧
    somaQuad ((mesesDe exDf4).map (fun r => r.fat Fator.conc)) = 0 ∧
    (∀ m ∈ mesesDe exDf4, Qsqrt.interp (m.z Fator.conc) = 0) :=
  ⟨(claim_C6 exDf4 Fator.conc _ rfl).1,
   by with_unfolding_all decide,
   (claim_C6 exDf4 Fator.conc _ rfl).2.1 (by with_unfolding_all decide)⟩

/-- C5: the ranked correlation table contains, for each of the five
factors, the Pearson correlation (population moments, over all monthly
rows) of that factor's raw monthly aggregate with the raw monthly sales
aggregate; a zero-variance factor is reported in the ranking with an
undefined correlation (NaN) instead of causing a failure; and the table is
sorted descending by correlation value with NaN last and ties broken by
the factor declaration order. -/
theorem claim_C5 (meses : List MonthlyRow) :
    (corrVendas meses).Perm (fatores.map (fun f => (f, corrOf meses f))) ∧
    (∀ f : Fator, somaQuad (meses.map (fun r => r.fat f)) = 0 →
      (f, (none : Option Qsqrt)) ∈ corrVendas meses) ∧
    (∀ f : Fator, ∀ a : Qsqrt, corrOf meses f = some a →
      Qsqrt.interp a =
        pearsonR (meses.map (fun r => (r.vendas : ℝ)))
          (meses.map (fun r => (r.fat f : ℝ)))) ∧
    (corrVendas meses).Pairwise (fun p q =>
      rankLeR p.2 q.2 ∧ (rankLeR q.2 p.2 → idxFator p.1 < idxFator q.1)) := by
  refine ⟨List.perm_insertionSort rankR _, ?_, ?_, ?_⟩
  · intro f h0
    have hno : ¬ (0 < somaQuad (meses.map (fun r => r.vendas)) ∧
        0 < somaQuad (meses.map (fun r => r.fat f))) := by
      rintro ⟨-, hx⟩
      rw [h0] at hx
      exact lt_irrefl 0 hx
    have hnone : corrOf meses f = none := by
      unfold corrOf
      dsimp only
      rw [dif_neg hno]
    have hmemf : f ∈ fatores := by cases f <;> simp [fatores]
    have hmem : (f, corrOf meses f) ∈ fatores.map (fun g => (g, corrOf meses g)) :=
      List.mem_map_of_mem _ hmemf
    rw [hnone] at hmem
    unfold corrVendas
    exact (List.mem_insertionSort rankR).2 hmem
  · intro f a ha
    by_cases hc : 0 < somaQuad (meses.map (fun r => r.vendas)) ∧
        0 < somaQuad (meses.map (fun r => r.fat f))
    · unfold corrOf at ha
      dsimp only at ha
      rw [dif_pos hc] at ha
      injection ha with h
      subst h
      rw [interp_mk]
      have hX : meses.map (fun r => (r.vendas : ℝ)) =
          (meses.map (fun r => r.vendas)).map (fun (q : ℚ) => (q : ℝ)) := by
        rw [List.map_map]
        rfl
      have hY : meses.map (fun r => (r.fat f : ℝ)) =
          (meses.map (fun r => r.fat f)).map (fun (q : ℚ) => (q : ℝ)) := by
        rw [List.map_map]
        rfl
      rw [hX, hY]
      unfold pearsonR
      rw [covPopR_cast, varPopR_cast, varPopR_cast]
      simp only [List.length_map]
      have hv : (0 : ℝ) < ((somaQuad (meses.map (fun r => r.vendas)) : ℚ) : ℝ) := by
        exact_mod_cast hc.1
      have hx : (0 : ℝ) < ((somaQuad (meses.map (fun r => r.fat f)) : ℚ) : ℝ) := by
        exact_mod_cast hc.2
      have hn : (0 : ℝ) < (meses.length : ℝ) := by
        cases meses with
        | nil => simp [somaQuad, media] at hc
        | cons m ms => exact_mod_cast Nat.succ_pos ms.length
      push_cast
      rw [pearson_algebra _ _ _ _ hv hx hn]
    · exfalso
      unfold corrOf at ha
      dsimp only at ha
      rw [dif_neg hc] at ha
      exact Option.noConfusion ha
  · have hkey : (fatores.map (fun f => (f, corrOf meses f))).Pairwise
        (fun p q => idxFator p.1 < idxFator q.1) := by
      rw [List.pairwise_map]
      simp [fatores, idxFator]
    have h := pairwise_key_insertionSort rankR (fun p => idxFator p.1) _ hkey
    unfold corrVendas
    refine h.imp ?_
    intro p q hpq
    exact ⟨(rankLeB_iff _ _).1 hpq.1, fun hba => hpq.2 ((rankLeB_iff _ _).2 hba)⟩

/-- Evaluation witness for C5: in the loaded 4-month fixture the factor
`Concorrencia_Promocoes` has zero variance, and the ranking still contains
it, paired with the undefined (NaN) correlation. -/
theorem claim_C5_witness :
    somaQuad ((mesesDe exDf4).map (fun r => r.fat Fator.conc)) = 0 ∧
    (Fator.conc, (none : Option Qsqrt)) ∈ corrVendas (mesesDe exDf4) :=
  ⟨by with_unfolding_all decide,
   (claim_C5 (mesesDe exDf4)).2.1 Fator.conc (by with_unfolding_all decide)⟩
